import Mathlib

set_option maxRecDepth 20000

/-!
Verification development for the ImgCanvas document state machine.

The definitions below are a shallow embedding of the reducer in
`src/context/ImageContext.tsx` (data types from `src/main.tsx`) and of the
resize-handle geometry in `src/components/DraggableImage.tsx`.  Board
coordinates and zIndex values are JavaScript numbers in the source; the spec
declares board coordinates to be real numbers, so they are modelled here as
rationals (exact arithmetic).  `Date.now()` and the random component of
`generateId` are nondeterministic inputs of a dispatch; they are threaded
explicitly as the `now` and `salt` fields of an `Event`.
-/

/-- Identifier produced by `generateId` (`img_${Date.now()}_${random}`): it
carries the `Date.now()` timestamp and a random component.  The source
recovers the timestamp of such an id with `parseInt(id.split('_')[1])`,
which is the `time` field here. -/
structure ImgId where
  time : Int
  salt : Nat
deriving DecidableEq, Repr

/-- Models `parseInt(img.id.split('_')[1])` for ids produced by `generateId`. -/
def idTime (i : ImgId) : Int := i.time

/-- ImageItem from `src/main.tsx`. -/
structure ImageItem where
  id : ImgId
  src : String
  x : ℚ
  y : ℚ
  width : ℚ
  height : ℚ
  originalWidth : ℚ
  originalHeight : ℚ
  zIndex : ℚ
  visible : Bool
  aspectRatioLocked : Bool
  rotation : Option ℚ := none
  opacity : Option ℚ := none
deriving DecidableEq, Repr

inductive DragMode
  | free
  | gridSnap
deriving DecidableEq, Repr

/-- HistoryAction tags from `src/main.tsx`; the source tag
`toggle-aspect-ratio` is rendered here as `toggleAspect`. -/
inductive HistoryAction
  | addImage
  | deleteImage
  | moveImage
  | resizeImage
  | cropImage
  | reorderLayer
  | toggleVisibility
  | toggleAspect
  | multipleChanges
deriving DecidableEq, Repr

structure HistoryStep where
  id : ImgId
  action : HistoryAction
  timestamp : Int
  description : String
  images : List ImageItem
deriving DecidableEq, Repr

structure CropSelection where
  x : ℚ
  y : ℚ
  width : ℚ
  height : ℚ
deriving DecidableEq, Repr

structure CropState where
  imageId : Option ImgId
  selection : Option CropSelection
  isActive : Bool
deriving DecidableEq, Repr

structure AppState where
  images : List ImageItem
  selectedImageId : Option ImgId
  dragMode : DragMode
  aspectRatioLocked : Bool
  history : List HistoryStep
  historyIndex : Int
  cropState : CropState
  layerSidebarVisible : Bool
  darkMode : Bool
  isLoading : Bool
deriving DecidableEq, Repr

/-- The initial state from `src/context/ImageContext.tsx`. -/
def initialState : AppState :=
  { images := []
    selectedImageId := none
    dragMode := .free
    aspectRatioLocked := true
    history := []
    historyIndex := -1
    cropState := { imageId := none, selection := none, isActive := false }
    layerSidebarVisible := false
    darkMode := false
    isLoading := false }

/-- Payload of `ADD_IMAGE`: `Omit<ImageItem, 'id' | 'zIndex'>`. -/
structure AddPayload where
  src : String
  x : ℚ
  y : ℚ
  width : ℚ
  height : ℚ
  originalWidth : ℚ
  originalHeight : ℚ
  visible : Bool
  aspectRatioLocked : Bool
  rotation : Option ℚ := none
  opacity : Option ℚ := none
deriving DecidableEq, Repr

/-- Payload of `UPDATE_IMAGE`: `Partial<ImageItem>`; `none` fields are absent
from the partial object and left untouched by `Object.assign`. -/
structure ImageUpdates where
  id : Option ImgId := none
  src : Option String := none
  x : Option ℚ := none
  y : Option ℚ := none
  width : Option ℚ := none
  height : Option ℚ := none
  originalWidth : Option ℚ := none
  originalHeight : Option ℚ := none
  zIndex : Option ℚ := none
  visible : Option Bool := none
  aspectRatioLocked : Option Bool := none
  rotation : Option (Option ℚ) := none
  opacity : Option (Option ℚ) := none
deriving DecidableEq, Repr

/-- Object.assign of a Partial<ImageItem> onto an ImageItem. -/
def applyUpdates (img : ImageItem) (u : ImageUpdates) : ImageItem :=
  { id := u.id.getD img.id
    src := u.src.getD img.src
    x := u.x.getD img.x
    y := u.y.getD img.y
    width := u.width.getD img.width
    height := u.height.getD img.height
    originalWidth := u.originalWidth.getD img.originalWidth
    originalHeight := u.originalHeight.getD img.originalHeight
    zIndex := u.zIndex.getD img.zIndex
    visible := u.visible.getD img.visible
    aspectRatioLocked := u.aspectRatioLocked.getD img.aspectRatioLocked
    rotation := u.rotation.getD img.rotation
    opacity := u.opacity.getD img.opacity }

/-- Action type of the reducer.  `LOAD_STATE` is omitted: its payload is an
arbitrary partial state supplied by the out-of-scope persistence
collaborator, outside the document-operation alphabet the claims quantify
over. -/
inductive ReducerAction
  | addImage (payload : AddPayload)
  | deleteImage (id : ImgId)
  | updateImage (id : ImgId) (updates : ImageUpdates)
  | selectImage (id : Option ImgId)
  | setDragMode (mode : DragMode)
  | toggleAspectLock
  | setAspectLock (b : Bool)
  | undo
  | redo
  | addHistoryStep (action : HistoryAction) (description : String)
  | startCrop (id : ImgId)
  | updateCropSelection (sel : CropSelection)
  | applyCrop
  | cancelCrop
  | reorderLayer (imageId : ImgId) (newZIndex : ℚ)
  | toggleLayerVisibility (id : ImgId)
  | toggleLayerSidebar
  | setLayerSidebar (b : Bool)
  | toggleDarkMode
  | setDarkMode (b : Bool)
  | setLoading (b : Bool)
  | resetState
deriving DecidableEq, Repr

/-- One dispatch: the action together with the ambient `Date.now()` value and
the random component consumed by `generateId` during this dispatch. -/
structure Event where
  now : Int
  salt : Nat
  act : ReducerAction
deriving DecidableEq, Repr

/-- createHistoryStep from the source (the deep copy is identity in a pure
embedding). -/
def createHistoryStep (now : Int) (salt : Nat) (a : HistoryAction)
    (desc : String) (imgs : List ImageItem) : HistoryStep :=
  { id := ⟨now, salt⟩, action := a, timestamp := now, description := desc
    images := imgs }

/-- JavaScript `l.slice(0, e)` for an integer end index `e` (a negative end
counts from the end of the array). -/
def jsSlice0 {α : Type} (l : List α) (e : Int) : List α :=
  l.take (if e < 0 then ((l.length : Int) + e).toNat else e.toNat)

/-- Shared history-append block: `history = history.slice(0, historyIndex+1)`,
push the step, set the cursor to the last position. -/
def pushStep (st : HistoryStep) (s : AppState) : AppState :=
  let h := jsSlice0 s.history (s.historyIndex + 1) ++ [st]
  { s with history := h, historyIndex := (h.length : Int) - 1 }

/-- The 100-step cap check (`history.shift()` drops the oldest step).  The
source runs this after the appends in `ADD_IMAGE`, `ADD_HISTORY_STEP` and
`REORDER_LAYER`, but not after the appends in `DELETE_IMAGE`, `APPLY_CROP`
and `TOGGLE_LAYER_VISIBILITY`. -/
def capHistory (s : AppState) : AppState :=
  if s.history.length > 100 then
    { s with history := s.history.drop 1, historyIndex := s.historyIndex - 1 }
  else s

/-- Duplicate-submission guard of `ADD_IMAGE`: inspect `images.slice(-1)`
(the single most recent image) and reject when src, x and y coincide and the
most recent image was created less than 50 ms ago. -/
def isDupAdd (s : AppState) (now : Int) (p : AddPayload) : Bool :=
  match s.images.getLast? with
  | some img =>
      decide (img.src = p.src ∧ img.x = p.x ∧ img.y = p.y ∧
        now - idTime img.id < 50)
  | none => false

/-- The freshly constructed image of a non-duplicate `ADD_IMAGE`: payload
spread, fresh id, `zIndex = images.length`, and `aspectRatioLocked`
overridden by the document-global flag. -/
def newImageOf (now : Int) (salt : Nat) (p : AddPayload) (s : AppState) :
    ImageItem :=
  { id := ⟨now, salt⟩
    src := p.src
    x := p.x
    y := p.y
    width := p.width
    height := p.height
    originalWidth := p.originalWidth
    originalHeight := p.originalHeight
    zIndex := (s.images.length : ℚ)
    visible := p.visible
    aspectRatioLocked := s.aspectRatioLocked
    rotation := p.rotation
    opacity := p.opacity }

/-- ADD_IMAGE case. -/
def addImageStep (now : Int) (salt : Nat) (p : AddPayload) (s : AppState) :
    AppState :=
  if isDupAdd s now p then s
  else
    let newImage := newImageOf now salt p s
    let s1 := { s with images := s.images ++ [newImage]
                       selectedImageId := some newImage.id }
    capHistory (pushStep
      (createHistoryStep now (salt + 1) .addImage "画像を追加" s1.images) s1)

/-- Position-indexed traversal used to model mutation inside
`forEach((img, index) => ...)` and friends. -/
def idxFrom {α : Type} : Nat → List α → List (Nat × α)
  | _, [] => []
  | k, a :: l => (k, a) :: idxFrom (k + 1) l

/-- The DELETE_IMAGE renumbering: `images.forEach((img, index) => img.zIndex
= index)`. -/
def renumberZ (imgs : List ImageItem) : List ImageItem :=
  (idxFrom 0 imgs).map fun p => { p.2 with zIndex := (p.1 : ℚ) }

/-- DELETE_IMAGE case (note: the history append here has no cap check in the
source). -/
def deleteImageStep (now : Int) (salt : Nat) (tid : ImgId) (s : AppState) :
    AppState :=
  match s.images.findIdx? (fun img => decide (img.id = tid)) with
  | none => s
  | some i =>
      let imgs1 := s.images.eraseIdx i
      let sel := if s.selectedImageId = some tid then none
                 else s.selectedImageId
      let imgs2 := renumberZ imgs1
      pushStep (createHistoryStep now salt .deleteImage "画像を削除" imgs2)
        { s with images := imgs2, selectedImageId := sel }

/-- UPDATE_IMAGE case. -/
def updateImageStep (tid : ImgId) (u : ImageUpdates) (s : AppState) :
    AppState :=
  match s.images.findIdx? (fun img => decide (img.id = tid)) with
  | none => s
  | some i =>
      { s with images := (idxFrom 0 s.images).map fun p =>
          if p.1 = i then applyUpdates p.2 u else p.2 }

/-- UNDO case.  The guard is `historyIndex > 0`; in every index-well-formed
state the decremented index is in range, so the `none` fallback (which keeps
the images) is never taken there. -/
def undoStep (s : AppState) : AppState :=
  if s.historyIndex > 0 then
    let j := s.historyIndex - 1
    match s.history.get? j.toNat with
    | some st => { s with historyIndex := j, images := st.images }
    | none => { s with historyIndex := j }
  else s

/-- REDO case, guard `historyIndex < history.length - 1`. -/
def redoStep (s : AppState) : AppState :=
  if s.historyIndex < (s.history.length : Int) - 1 then
    let j := s.historyIndex + 1
    match s.history.get? j.toNat with
    | some st => { s with historyIndex := j, images := st.images }
    | none => { s with historyIndex := j }
  else s

/-- ADD_HISTORY_STEP case (append, then cap check). -/
def addHistoryStepStep (now : Int) (salt : Nat) (a : HistoryAction)
    (desc : String) (s : AppState) : AppState :=
  capHistory (pushStep (createHistoryStep now salt a desc s.images) s)

/-- Clears the crop sub-state (shared by APPLY_CROP and CANCEL_CROP). -/
def clearCrop (s : AppState) : AppState :=
  { s with cropState := { imageId := none, selection := none
                          isActive := false } }

/-- APPLY_CROP case (no cap check on its history append in the source). -/
def applyCropStep (now : Int) (salt : Nat) (s : AppState) : AppState :=
  let s2 :=
    match s.cropState.imageId, s.cropState.selection with
    | some tid, some sel =>
        match s.images.findIdx? (fun img => decide (img.id = tid)) with
        | some i =>
            let imgs := (idxFrom 0 s.images).map fun p =>
              if p.1 = i then
                { p.2 with width := sel.width, height := sel.height
                           x := p.2.x + sel.x, y := p.2.y + sel.y }
              else p.2
            pushStep
              (createHistoryStep now salt .cropImage "画像をトリミング" imgs)
              { s with images := imgs }
        | none => s
    | _, _ => s
  clearCrop s2

/-- The per-image shift of REORDER_LAYER (the target id itself is skipped). -/
def shiftForReorder (tid : ImgId) (oldZ newZ : ℚ) (img : ImageItem) :
    ImageItem :=
  if img.id = tid then img
  else if oldZ < newZ then
    if img.zIndex ≤ newZ ∧ img.zIndex > oldZ then
      { img with zIndex := img.zIndex - 1 }
    else img
  else
    if img.zIndex ≥ newZ ∧ img.zIndex < oldZ then
      { img with zIndex := img.zIndex + 1 }
    else img

/-- Relation used for the renormalization sort (ascending zIndex on indexed
images). -/
def zKeyLe (a b : Nat × ImageItem) : Prop := a.2.zIndex ≤ b.2.zIndex

instance : DecidableRel zKeyLe := fun a b =>
  inferInstanceAs (Decidable (a.2.zIndex ≤ b.2.zIndex))

/-- The REORDER_LAYER renormalization: sort by zIndex (JavaScript
`Array.prototype.sort` is stable, as is insertion sort, so ties keep array
order) and write each image's position in the sorted order back into its
zIndex, leaving the array order itself unchanged (the source mutates the
shared objects through the sorted alias array). -/
def renormalizeZ (imgs : List ImageItem) : List ImageItem :=
  let sorted := List.insertionSort zKeyLe (idxFrom 0 imgs)
  (idxFrom 0 imgs).map fun p =>
    { p.2 with zIndex := (sorted.findIdx (fun q => decide (q.1 = p.1)) : ℚ) }

/-- REORDER_LAYER case (shift, renormalize, append history, cap check). -/
def reorderLayerStep (now : Int) (salt : Nat) (tid : ImgId) (newZ : ℚ)
    (s : AppState) : AppState :=
  match s.images.findIdx? (fun img => decide (img.id = tid)) with
  | none => s
  | some i =>
      match s.images.get? i with
      | none => s
      | some target =>
          let oldZ := target.zIndex
          let imgs1 := (idxFrom 0 s.images).map fun p =>
            if p.1 = i then { p.2 with zIndex := newZ } else p.2
          let imgs2 := imgs1.map (shiftForReorder tid oldZ newZ)
          let imgs3 := renormalizeZ imgs2
          capHistory (pushStep
            (createHistoryStep now salt .reorderLayer "レイヤー順序を変更" imgs3)
            { s with images := imgs3 })

/-- TOGGLE_LAYER_VISIBILITY case (its history append has no cap check in the
source). -/
def toggleVisibilityStep (now : Int) (salt : Nat) (tid : ImgId)
    (s : AppState) : AppState :=
  match s.images.findIdx? (fun img => decide (img.id = tid)) with
  | none => s
  | some i =>
      let imgs := (idxFrom 0 s.images).map fun p =>
        if p.1 = i then { p.2 with visible := !p.2.visible } else p.2
      pushStep (createHistoryStep now salt .toggleVisibility "表示/非表示を切替" imgs)
        { s with images := imgs }

/-- The reducer `imageReducer`, one dispatch. -/
def imageReducer (s : AppState) (ev : Event) : AppState :=
  match ev.act with
  | .addImage p => addImageStep ev.now ev.salt p s
  | .deleteImage tid => deleteImageStep ev.now ev.salt tid s
  | .updateImage tid u => updateImageStep tid u s
  | .selectImage oid => { s with selectedImageId := oid }
  | .setDragMode m => { s with dragMode := m }
  | .toggleAspectLock => { s with aspectRatioLocked := !s.aspectRatioLocked }
  | .setAspectLock b => { s with aspectRatioLocked := b }
  | .undo => undoStep s
  | .redo => redoStep s
  | .addHistoryStep a d => addHistoryStepStep ev.now ev.salt a d s
  | .startCrop tid =>
      { s with cropState := { imageId := some tid, selection := none
                              isActive := true } }
  | .updateCropSelection sel =>
      { s with cropState := { s.cropState with selection := some sel } }
  | .applyCrop => applyCropStep ev.now ev.salt s
  | .cancelCrop => clearCrop s
  | .reorderLayer tid z => reorderLayerStep ev.now ev.salt tid z s
  | .toggleLayerVisibility tid => toggleVisibilityStep ev.now ev.salt tid s
  | .toggleLayerSidebar =>
      { s with layerSidebarVisible := !s.layerSidebarVisible }
  | .setLayerSidebar b => { s with layerSidebarVisible := b }
  | .toggleDarkMode => { s with darkMode := !s.darkMode }
  | .setDarkMode b => { s with darkMode := b }
  | .setLoading b => { s with isLoading := b }
  | .resetState => initialState

/-- Running a sequence of dispatches from the initial state. -/
def run (evs : List Event) : AppState := evs.foldl imageReducer initialState

/-- Corner handle of a resize gesture. -/
inductive Handle
  | nw
  | ne
  | sw
  | se
deriving DecidableEq, Repr

/-- Output geometry of one resize computation. -/
structure ResizeOut where
  x : ℚ
  y : ℚ
  width : ℚ
  height : ℚ
deriving DecidableEq, Repr

/-- Raw per-handle computation of the full (non-Windows) resize path in
`handleResize` (`src/components/DraggableImage.tsx`): the se handle keeps
the position, sw shifts x, ne shifts y, nw shifts both, each by the negative
of the size delta, after flooring the sizes at 50. -/
def resizeRaw (hd : Handle) (x0 y0 w0 h0 dx dy : ℚ) : ResizeOut :=
  match hd with
  | .se => ⟨x0, y0, max 50 (w0 + dx), max 50 (h0 + dy)⟩
  | .sw =>
      let w := max 50 (w0 - dx)
      ⟨x0 + (w0 - w), y0, w, max 50 (h0 + dy)⟩
  | .ne =>
      let h := max 50 (h0 - dy)
      ⟨x0, y0 + (h0 - h), max 50 (w0 + dx), h⟩
  | .nw =>
      let w := max 50 (w0 - dx)
      let h := max 50 (h0 - dy)
      ⟨x0 + (w0 - w), y0 + (h0 - h), w, h⟩

/-- Aspect-ratio correction of the full resize path: shrink the dominant
dimension to the locked ratio `ar`, and for the handles that control x
(resp. y) shift the position by the exact width (resp. height) delta the
adjustment introduced. -/
def aspectAdjust (hd : Handle) (ar : ℚ) (o : ResizeOut) : ResizeOut :=
  if o.width / o.height > ar then
    let adjustedWidth := o.height * ar
    let widthDiff := o.width - adjustedWidth
    { o with width := adjustedWidth
             x := if hd = .sw ∨ hd = .nw then o.x + widthDiff else o.x }
  else if o.width / o.height < ar then
    let adjustedHeight := o.width / ar
    let heightDiff := o.height - adjustedHeight
    { o with height := adjustedHeight
             y := if hd = .ne ∨ hd = .nw then o.y + heightDiff else o.y }
  else o

/-- First boundary statement of the full resize path: clamp x at 0,
shrinking the width by the overflow. -/
def clampLeft (o : ResizeOut) : ResizeOut :=
  if o.x < 0 then { o with width := o.width + o.x, x := 0 } else o

/-- Second boundary statement: clamp y at 0, shrinking the height. -/
def clampTop (o : ResizeOut) : ResizeOut :=
  if o.y < 0 then { o with height := o.height + o.y, y := 0 } else o

/-- Third boundary statement: cut the width down to the container. -/
def clampRight (bw : ℚ) (o : ResizeOut) : ResizeOut :=
  if o.x + o.width > bw then { o with width := bw - o.x } else o

/-- Fourth boundary statement: cut the height down to the container. -/
def clampBottom (bh : ℚ) (o : ResizeOut) : ResizeOut :=
  if o.y + o.height > bh then { o with height := bh - o.y } else o

/-- Boundary limiting of the full resize path: the four clamp statements in
source order. -/
def boundaryLimit (bw bh : ℚ) (o : ResizeOut) : ResizeOut :=
  clampBottom bh (clampRight bw (clampTop (clampLeft o)))

/-- Full resize path up to (but excluding) the final minimum-size re-clamp
(source lines: raw handle switch, aspect correction, boundary limiting).
`alocked` is the image's aspect flag and `shiftKey` the override modifier;
`ow`/`oh` are the natural dimensions giving the locked ratio.  Grid-snap
quantization does not run in free drag mode and is not part of this path. -/
def resizeFullPre (hd : Handle) (alocked shiftKey : Bool) (ow oh bw bh : ℚ)
    (x0 y0 w0 h0 dx dy : ℚ) : ResizeOut :=
  let ar := ow / oh
  let isAspectLocked := alocked && !shiftKey
  let o := resizeRaw hd x0 y0 w0 h0 dx dy
  let o := if isAspectLocked then aspectAdjust hd ar o else o
  boundaryLimit bw bh o

/-- The complete full resize path, ending with the final minimum-size
re-clamp `newWidth = max(50, newWidth); newHeight = max(50, newHeight)`. -/
def resizeFull (hd : Handle) (alocked shiftKey : Bool) (ow oh bw bh : ℚ)
    (x0 y0 w0 h0 dx dy : ℚ) : ResizeOut :=
  let o := resizeFullPre hd alocked shiftKey ow oh bw bh x0 y0 w0 h0 dx dy
  { o with width := max 50 o.width, height := max 50 o.height }

/-- The zIndex values of a collection. -/
def zList (imgs : List ImageItem) : List ℚ := imgs.map (·.zIndex)

/-- Density of the zIndex values: as a multiset they are exactly
0, 1, ..., N-1, each occurring once. -/
def denseZ (imgs : List ImageItem) : Prop :=
  (zList imgs).Perm ((List.range imgs.length).map (fun k : Nat => (k : ℚ)))

instance (imgs : List ImageItem) : Decidable (denseZ imgs) :=
  inferInstanceAs (Decidable (List.Perm _ _))

/-- Density of the live collection and of every retained snapshot (snapshots
re-enter the live collection through undo and redo). -/
def DenseInv (s : AppState) : Prop :=
  denseZ s.images ∧ ∀ st ∈ s.history, denseZ st.images

/-- An UPDATE_IMAGE payload that does not write the zIndex field. -/
def noZUpd (ev : Event) : Prop :=
  match ev.act with
  | .updateImage _ u => u.zIndex = none
  | _ => True

/-- Selection validity: a non-null `selectedImageId` references an image
present in the collection. -/
def SelInv (s : AppState) : Prop :=
  ∀ sid, s.selectedImageId = some sid → ∃ img ∈ s.images, img.id = sid

/-- The history cursor sits on the last retained step. -/
def CursorAtEnd (s : AppState) : Prop :=
  s.historyIndex = (s.history.length : Int) - 1

/-- The live image collection equals the snapshot under the cursor when the
cursor sits on the last step. -/
def ImagesMatchLast (s : AppState) : Prop :=
  ∀ st, s.history.getLast? = some st → s.images = st.images

/-- Actions of the history-appending kinds (the six operations that contain
a history append in their reducer case). -/
def isAppendingKind : ReducerAction → Prop
  | .addImage _ => True
  | .deleteImage _ => True
  | .addHistoryStep _ _ => True
  | .applyCrop => True
  | .reorderLayer _ _ => True
  | .toggleLayerVisibility _ => True
  | _ => False

/-- The dispatch actually appends a history step in state `s` (its guard
passes, so the operation is not a silent no-op). -/
def appendsHistory (s : AppState) (ev : Event) : Prop :=
  match ev.act with
  | .addImage p => isDupAdd s ev.now p = false
  | .deleteImage tid =>
      (s.images.findIdx? (fun img => decide (img.id = tid))).isSome = true
  | .addHistoryStep _ _ => True
  | .applyCrop => ∃ tid sel, s.cropState.imageId = some tid ∧
      s.cropState.selection = some sel ∧
      (s.images.findIdx? (fun img => decide (img.id = tid))).isSome = true
  | .reorderLayer tid _ =>
      (s.images.findIdx? (fun img => decide (img.id = tid))).isSome = true
  | .toggleLayerVisibility tid =>
      (s.images.findIdx? (fun img => decide (img.id = tid))).isSome = true
  | _ => False

/-- Sample payload used by witnesses. -/
def sampleAdd : AddPayload :=
  { src := "a", x := 0, y := 0, width := 100, height := 100
    originalWidth := 100, originalHeight := 100, visible := true
    aspectRatioLocked := true }

def sampleAddB : AddPayload := { sampleAdd with src := "b" }

def sampleAddC : AddPayload := { sampleAdd with src := "c" }

def evAddA : Event := ⟨0, 0, .addImage sampleAdd⟩

def evAddB : Event := ⟨1000, 0, .addImage sampleAddB⟩

def evAddC : Event := ⟨2000, 0, .addImage sampleAddC⟩

def evUndo : Event := ⟨0, 0, .undo⟩

/-- Toggles the visibility of the image created by `evAddA`. -/
def evToggleA : Event := ⟨5000, 0, .toggleLayerVisibility ⟨0, 0⟩⟩

/-- A sequence of 150 history-appending operations: one add followed by 149
visibility toggles of that image. -/
def capEvents : List Event := evAddA :: List.replicate 149 evToggleA

/-- A dense document whose array order differs from its stacking order:
image a sits at array position 0 with zIndex 1, b at position 1 with
zIndex 0, c at position 2 with zIndex 2.  Such states arise from
ReorderLayer, which permutes zIndex values but never array positions. -/
def scrambled : AppState :=
  { initialState with images :=
      [ ⟨⟨0, 0⟩, "a", 0, 0, 100, 100, 100, 100, 1, true, true, none, none⟩
      , ⟨⟨1, 0⟩, "b", 0, 0, 100, 100, 100, 100, 0, true, true, none, none⟩
      , ⟨⟨2, 0⟩, "c", 0, 0, 100, 100, 100, 100, 2, true, true, none,
          none⟩ ] }

theorem pushStep_images (st : HistoryStep) (s : AppState) :
    (pushStep st s).images = s.images := rfl

theorem capHistory_images (s : AppState) : (capHistory s).images = s.images := by
  unfold capHistory; split <;> rfl

theorem addImageStep_of_dup {s : AppState} {now : Int} {salt : Nat}
    {p : AddPayload} (h : isDupAdd s now p = true) :
    addImageStep now salt p s = s := by
  unfold addImageStep; rw [h]; rfl

theorem addImageStep_images_of_not_dup {s : AppState} {now : Int} {salt : Nat}
    {p : AddPayload} (h : isDupAdd s now p = false) :
    (addImageStep now salt p s).images = s.images ++ [newImageOf now salt p s] := by
  unfold addImageStep
  rw [h]
  simp only [Bool.false_eq_true, if_false, capHistory_images, pushStep_images]

/-- Claim C8: an `AddImage` whose payload repeats the most recent image's
src, x and y within the 50 ms window is rejected with the whole state left
unchanged; the guard fires exactly when the single most recent image matches
in src, x, y and creation time, so a payload differing in any of those, or
matching only an older image, is added normally. -/
theorem c8_duplicate_guard (s : AppState) (now : Int) (salt : Nat)
    (p : AddPayload) :
    (isDupAdd s now p = true ↔
      ∃ li, s.images.getLast? = some li ∧ li.src = p.src ∧ li.x = p.x ∧
        li.y = p.y ∧ now - idTime li.id < 50) ∧
    (isDupAdd s now p = true → addImageStep now salt p s = s) ∧
    (isDupAdd s now p = false →
      (addImageStep now salt p s).images =
        s.images ++ [newImageOf now salt p s]) := by
  refine ⟨?_, fun h => addImageStep_of_dup h,
    fun h => addImageStep_images_of_not_dup h⟩
  unfold isDupAdd
  cases h : s.images.getLast? with
  | none => simp
  | some li => simp [h]

theorem c8_duplicate_guard_witness :
    addImageStep 30 1 sampleAdd (run [evAddA]) = run [evAddA] ∧
    (addImageStep 60 1 sampleAdd (run [evAddA])).images =
      (run [evAddA]).images ++ [newImageOf 60 1 sampleAdd (run [evAddA])] :=
  ⟨(c8_duplicate_guard (run [evAddA]) 30 1 sampleAdd).2.1 (by decide),
   (c8_duplicate_guard (run [evAddA]) 60 1 sampleAdd).2.2 (by decide)⟩

/-- Claim C10: a non-duplicate `AddImage` stores the image with
`aspectRatioLocked` equal to the document-global flag, overriding whatever
value the payload supplied. -/
theorem c10_aspect_flag_override (s : AppState) (now : Int) (salt : Nat)
    (p : AddPayload) (b : Bool)
    (h : isDupAdd s now { p with aspectRatioLocked := b } = false) :
    ((addImageStep now salt { p with aspectRatioLocked := b } s).images.getLast?).map
        (·.aspectRatioLocked) = some s.aspectRatioLocked := by
  rw [addImageStep_images_of_not_dup h, List.getLast?_concat]
  rfl

theorem c10_aspect_flag_override_witness :
    ((addImageStep 0 0 { sampleAdd with aspectRatioLocked := false }
        initialState).images.getLast?).map (·.aspectRatioLocked) =
      some initialState.aspectRatioLocked :=
  c10_aspect_flag_override initialState 0 0 sampleAdd false (by decide)

theorem idxFrom_get? {α : Type} (l : List α) (k n : Nat) :
    (idxFrom k l).get? n = (l.get? n).map fun a => (k + n, a) := by
  induction l generalizing k n with
  | nil => simp [idxFrom]
  | cons a l ih =>
    cases n with
    | zero => simp [idxFrom]
    | succ m =>
      simp only [idxFrom, List.get?, ih]
      cases l.get? m with
      | none => rfl
      | some b => simp only [Option.map_some']; congr 2; omega

theorem idxFrom_map_get? {α β : Type} (f : Nat × α → β) (l : List α)
    (n : Nat) :
    ((idxFrom 0 l).map f).get? n = (l.get? n).map fun a => f (n, a) := by
  rw [List.get?_map, idxFrom_get?]
  cases l.get? n <;> simp

theorem idxFrom_length {α : Type} (l : List α) (k : Nat) :
    (idxFrom k l).length = l.length := by
  induction l generalizing k with
  | nil => rfl
  | cons a l ih => simp [idxFrom, ih]

theorem idxFrom_map_snd {α : Type} (l : List α) (k : Nat) :
    (idxFrom k l).map Prod.snd = l := by
  induction l generalizing k with
  | nil => rfl
  | cons a l ih => simp [idxFrom, ih]

theorem idxFrom_map_fst {α : Type} (l : List α) (k : Nat) :
    (idxFrom k l).map Prod.fst = List.range' k l.length := by
  induction l generalizing k with
  | nil => rfl
  | cons a l ih => simp [idxFrom, ih, List.range'_succ]

theorem clearCrop_images (s : AppState) : (clearCrop s).images = s.images := rfl

theorem clearCrop_history (s : AppState) :
    (clearCrop s).history = s.history := rfl

/-- Claim C7: ApplyCrop with an existing target and a selection rewrites
exactly the target image (size from the selection, position offset by the
selection origin) and appends exactly one history step with the cursor on
it; a missing target or null selection leaves images and history untouched;
in every case the crop sub-state is cleared. -/
theorem c7_apply_crop (now : Int) (salt : Nat) (s : AppState) :
    (applyCropStep now salt s).cropState = ⟨none, none, false⟩ ∧
    (∀ tid sel i, s.cropState.imageId = some tid →
      s.cropState.selection = some sel →
      s.images.findIdx? (fun img => decide (img.id = tid)) = some i →
      ((∀ j, j ≠ i →
          (applyCropStep now salt s).images.get? j = s.images.get? j) ∧
       (∀ img, s.images.get? i = some img →
          (applyCropStep now salt s).images.get? i =
            some { img with width := sel.width, height := sel.height
                            x := img.x + sel.x, y := img.y + sel.y }) ∧
       (applyCropStep now salt s).history =
         jsSlice0 s.history (s.historyIndex + 1) ++
           [createHistoryStep now salt .cropImage "画像をトリミング"
             (applyCropStep now salt s).images] ∧
       (applyCropStep now salt s).historyIndex =
         ((applyCropStep now salt s).history.length : Int) - 1)) ∧
    ((s.cropState.imageId = none ∨ s.cropState.selection = none ∨
       (∀ tid, s.cropState.imageId = some tid →
         s.images.findIdx? (fun img => decide (img.id = tid)) = none)) →
      (applyCropStep now salt s).images = s.images ∧
      (applyCropStep now salt s).history = s.history ∧
      (applyCropStep now salt s).historyIndex = s.historyIndex) := by
  refine ⟨rfl, ?_, ?_⟩
  · intro tid sel i h1 h2 h3
    have hs : applyCropStep now salt s =
        clearCrop (pushStep
          (createHistoryStep now salt .cropImage "画像をトリミング"
            ((idxFrom 0 s.images).map fun p =>
              if p.1 = i then
                { p.2 with width := sel.width, height := sel.height
                           x := p.2.x + sel.x, y := p.2.y + sel.y }
              else p.2))
          { s with images := (idxFrom 0 s.images).map fun p =>
              if p.1 = i then
                { p.2 with width := sel.width, height := sel.height
                           x := p.2.x + sel.x, y := p.2.y + sel.y }
              else p.2 }) := by
      unfold applyCropStep
      rw [h1, h2]
      dsimp only
      rw [h3]
    refine ⟨?_, ?_, ?_, ?_⟩
    · intro j hj
      rw [hs, clearCrop_images, pushStep_images]
      show ((idxFrom 0 s.images).map _).get? j = _
      rw [idxFrom_map_get?]
      cases s.images.get? j with
      | none => rfl
      | some img => simp [hj]
    · intro img himg
      rw [hs, clearCrop_images, pushStep_images]
      show ((idxFrom 0 s.images).map _).get? i = _
      rw [idxFrom_map_get?, himg]
      simp
    · rw [hs]
      rfl
    · rw [hs]
      rfl
  · intro hno
    have hfields : ∀ t : AppState, (clearCrop t).images = t.images ∧
        (clearCrop t).history = t.history ∧
        (clearCrop t).historyIndex = t.historyIndex := fun t => ⟨rfl, rfl, rfl⟩
    rcases hno with h | h | h
    · have hs : applyCropStep now salt s = clearCrop s := by
        unfold applyCropStep
        rw [h]
      rw [hs]
      exact hfields s
    · have hs : applyCropStep now salt s = clearCrop s := by
        unfold applyCropStep
        rw [h]
        cases s.cropState.imageId <;> rfl
      rw [hs]
      exact hfields s
    · cases h1 : s.cropState.imageId with
      | none =>
          have hs : applyCropStep now salt s = clearCrop s := by
            unfold applyCropStep
            rw [h1]
          rw [hs]
          exact hfields s
      | some tid =>
          have hs : applyCropStep now salt s = clearCrop s := by
            unfold applyCropStep
            rw [h1]
            cases h2 : s.cropState.selection with
            | none => rfl
            | some sel =>
                dsimp only
                rw [h tid h1]
          rw [hs]
          exact hfields s

theorem c7_apply_crop_witness :
    ((applyCropStep 7 0 { run [evAddA] with
        cropState := { imageId := some ⟨0, 0⟩
                       selection := some ⟨5, 6, 40, 30⟩
                       isActive := true } }).images.get? 0 =
      some { (newImageOf 0 0 sampleAdd initialState) with
               width := 40, height := 30, x := 0 + 5, y := 0 + 6 }) ∧
    (applyCropStep 7 0 (run [evAddA])).images = (run [evAddA]).images := by
  constructor
  · have h := (c7_apply_crop 7 0 { run [evAddA] with
        cropState := { imageId := some ⟨0, 0⟩
                       selection := some ⟨5, 6, 40, 30⟩
                       isActive := true } }).2.1 ⟨0, 0⟩ ⟨5, 6, 40, 30⟩ 0
      (by decide) (by decide) (by decide)
    have h2 := h.2.1 (newImageOf 0 0 sampleAdd initialState) (by decide)
    rw [h2]
    rfl
  · exact ((c7_apply_crop 7 0 (run [evAddA])).2.2 (Or.inl (by decide))).1

theorem pushStep_cursor (st : HistoryStep) (s : AppState) :
    CursorAtEnd (pushStep st s) := rfl

theorem capHistory_cursor {s : AppState} (h : CursorAtEnd s) :
    CursorAtEnd (capHistory s) := by
  unfold capHistory
  split
  · rename_i hlen
    show s.historyIndex - 1 = ((s.history.drop 1).length : Int) - 1
    rw [List.length_drop]
    unfold CursorAtEnd at h
    omega
  · exact h

theorem redoStep_of_cursorAtEnd {s : AppState} (h : CursorAtEnd s) :
    redoStep s = s := by
  unfold CursorAtEnd at h
  unfold redoStep
  rw [if_neg (by omega)]

theorem drop_one_concat_getLast? {α : Type} (l : List α) (a : α)
    (h : 1 ≤ l.length) : ((l ++ [a]).drop 1).getLast? = some a := by
  cases l with
  | nil => simp at h
  | cons b l => simp [List.getLast?_concat]

/-- Every history-appending reducer case whose guard passes funnels through
the shared append block: the result is `pushStep` of a step recording the
final images (with the cap check applied afterwards in the three capped
cases), on a state whose history fields are untouched. -/
theorem append_shape (s0 : AppState) (ev : Event)
    (happ : appendsHistory s0 ev) :
    ∃ st s1, s1.history = s0.history ∧ s1.historyIndex = s0.historyIndex ∧
      st.images = s1.images ∧
      (imageReducer s0 ev = pushStep st s1 ∨
       imageReducer s0 ev = capHistory (pushStep st s1)) := by
  obtain ⟨now, salt, act⟩ := ev
  cases act with
  | addImage p =>
      refine ⟨createHistoryStep now (salt + 1) .addImage "画像を追加"
          (s0.images ++ [newImageOf now salt p s0]),
        { s0 with images := s0.images ++ [newImageOf now salt p s0]
                  selectedImageId := some (newImageOf now salt p s0).id },
        rfl, rfl, rfl, Or.inr ?_⟩
      show addImageStep now salt p s0 = _
      unfold addImageStep
      rw [happ]
      rfl
  | deleteImage tid =>
      obtain ⟨i, hi⟩ := Option.isSome_iff_exists.mp happ
      refine ⟨createHistoryStep now salt .deleteImage "画像を削除"
          (renumberZ (s0.images.eraseIdx i)),
        { s0 with images := renumberZ (s0.images.eraseIdx i)
                  selectedImageId :=
                    if s0.selectedImageId = some tid then none
                    else s0.selectedImageId },
        rfl, rfl, rfl, Or.inl ?_⟩
      show deleteImageStep now salt tid s0 = _
      unfold deleteImageStep
      rw [hi]
  | addHistoryStep a d =>
      exact ⟨createHistoryStep now salt a d s0.images, s0, rfl, rfl, rfl,
        Or.inr rfl⟩
  | applyCrop =>
      obtain ⟨tid, sel, h1, h2, hfind⟩ := happ
      obtain ⟨i, hi⟩ := Option.isSome_iff_exists.mp hfind
      refine ⟨createHistoryStep now salt .cropImage "画像をトリミング"
          ((idxFrom 0 s0.images).map fun p : Nat × ImageItem =>
            if p.1 = i then
              { p.2 with width := sel.width, height := sel.height
                         x := p.2.x + sel.x, y := p.2.y + sel.y }
            else p.2),
        clearCrop { s0 with
          images := (idxFrom 0 s0.images).map fun p : Nat × ImageItem =>
            if p.1 = i then
              { p.2 with width := sel.width, height := sel.height
                         x := p.2.x + sel.x, y := p.2.y + sel.y }
            else p.2 },
        rfl, rfl, rfl, Or.inl ?_⟩
      show applyCropStep now salt s0 = _
      unfold applyCropStep
      rw [h1, h2]
      dsimp only
      rw [hi]
      rfl
  | reorderLayer tid z =>
      obtain ⟨i, hi⟩ := Option.isSome_iff_exists.mp happ
      have hlt : i < s0.images.length := by
        have := List.findIdx?_eq_some_iff_getElem.mp hi
        exact this.1
      have hget : s0.images.get? i = some (s0.images.get ⟨i, hlt⟩) :=
        List.get?_eq_get hlt
      have key : reorderLayerStep now salt tid z s0 =
          capHistory (pushStep
            (createHistoryStep now salt .reorderLayer "レイヤー順序を変更"
              (renormalizeZ
                (((idxFrom 0 s0.images).map fun p : Nat × ImageItem =>
                    if p.1 = i then { p.2 with zIndex := z } else p.2).map
                  (shiftForReorder tid (s0.images.get ⟨i, hlt⟩).zIndex z))))
            { s0 with
              images := renormalizeZ
                (((idxFrom 0 s0.images).map fun p : Nat × ImageItem =>
                    if p.1 = i then { p.2 with zIndex := z } else p.2).map
                  (shiftForReorder tid (s0.images.get ⟨i, hlt⟩).zIndex z)) }) := by
        unfold reorderLayerStep
        rw [hi]
        dsimp only
        rw [hget]
      refine ⟨_, _, ?_, ?_, ?_, Or.inr key⟩ <;> rfl
  | toggleLayerVisibility tid =>
      obtain ⟨i, hi⟩ := Option.isSome_iff_exists.mp happ
      refine ⟨createHistoryStep now salt .toggleVisibility "表示/非表示を切替"
          ((idxFrom 0 s0.images).map fun p : Nat × ImageItem =>
            if p.1 = i then { p.2 with visible := !p.2.visible } else p.2),
        { s0 with images := (idxFrom 0 s0.images).map fun p : Nat × ImageItem =>
            if p.1 = i then { p.2 with visible := !p.2.visible } else p.2 },
        rfl, rfl, rfl, Or.inl ?_⟩
      show toggleVisibilityStep now salt tid s0 = _
      unfold toggleVisibilityStep
      rw [hi]
  | updateImage tid u => exact happ.elim
  | selectImage oid => exact happ.elim
  | setDragMode m => exact happ.elim
  | toggleAspectLock => exact happ.elim
  | setAspectLock b => exact happ.elim
  | undo => exact happ.elim
  | redo => exact happ.elim
  | startCrop tid => exact happ.elim
  | updateCropSelection sel => exact happ.elim
  | cancelCrop => exact happ.elim
  | toggleLayerSidebar => exact happ.elim
  | setLayerSidebar b => exact happ.elim
  | toggleDarkMode => exact happ.elim
  | setDarkMode b => exact happ.elim
  | setLoading b => exact happ.elim
  | resetState => exact happ.elim

/-- Claim C5: after an Undo followed by any history-appending operation
whose guard passes, the new step is the last element of the history, the
cursor points at it, every step that sat after the cursor has been
discarded (the history is the truncated prefix plus the new step, up to the
cap eviction of the oldest step), and Redo is unavailable: it leaves the
state unchanged. -/
theorem c5_redo_branch_pruning (s : AppState) (ev : Event)
    (happ : appendsHistory (undoStep s) ev) :
    redoStep (imageReducer (undoStep s) ev) = imageReducer (undoStep s) ev ∧
    CursorAtEnd (imageReducer (undoStep s) ev) ∧
    ∃ st, (imageReducer (undoStep s) ev).history.getLast? = some st ∧
      ((imageReducer (undoStep s) ev).history =
         jsSlice0 (undoStep s).history ((undoStep s).historyIndex + 1) ++
           [st] ∨
       (imageReducer (undoStep s) ev).history =
         (jsSlice0 (undoStep s).history ((undoStep s).historyIndex + 1) ++
           [st]).drop 1) := by
  obtain ⟨st, s1, hh, hix, _, hcase | hcase⟩ :=
    append_shape (undoStep s) ev happ
  · rw [hcase]
    have hshape : (pushStep st s1).history =
        jsSlice0 (undoStep s).history ((undoStep s).historyIndex + 1) ++
          [st] := by
      show jsSlice0 s1.history (s1.historyIndex + 1) ++ [st] = _
      rw [hh, hix]
    exact ⟨redoStep_of_cursorAtEnd (pushStep_cursor st s1),
      pushStep_cursor st s1, st,
      by rw [hshape]; exact List.getLast?_concat _, Or.inl hshape⟩
  · rw [hcase]
    have hc := capHistory_cursor (pushStep_cursor st s1)
    have hshape : (pushStep st s1).history =
        jsSlice0 (undoStep s).history ((undoStep s).historyIndex + 1) ++
          [st] := by
      show jsSlice0 s1.history (s1.historyIndex + 1) ++ [st] = _
      rw [hh, hix]
    refine ⟨redoStep_of_cursorAtEnd hc, hc, st, ?_⟩
    unfold capHistory
    split
    · rename_i hlen
      rw [hshape] at hlen ⊢
      have hpre : 1 ≤ (jsSlice0 (undoStep s).history
          ((undoStep s).historyIndex + 1)).length := by
        rw [List.length_append] at hlen
        simp at hlen
        omega
      exact ⟨drop_one_concat_getLast? _ _ hpre, Or.inr rfl⟩
    · rw [hshape]
      exact ⟨List.getLast?_concat _, Or.inl rfl⟩

theorem c5_redo_branch_pruning_witness :
    redoStep (imageReducer (undoStep (run [evAddA, evAddB])) evAddC) =
      imageReducer (undoStep (run [evAddA, evAddB])) evAddC :=
  (c5_redo_branch_pruning (run [evAddA, evAddB]) evAddC
    (by show isDupAdd (undoStep (run [evAddA, evAddB])) 2000 sampleAddC = false
        decide)).1

theorem undoStep_history (s : AppState) : (undoStep s).history = s.history := by
  unfold undoStep
  split
  · dsimp only
    split <;> rfl
  · rfl

theorem redoStep_history (s : AppState) : (redoStep s).history = s.history := by
  unfold redoStep
  split
  · dsimp only
    split <;> rfl
  · rfl

theorem undoStep_selected (s : AppState) :
    (undoStep s).selectedImageId = s.selectedImageId := by
  unfold undoStep
  split
  · dsimp only
    split <;> rfl
  · rfl

theorem redoStep_selected (s : AppState) :
    (redoStep s).selectedImageId = s.selectedImageId := by
  unfold redoStep
  split
  · dsimp only
    split <;> rfl
  · rfl

theorem jsSlice0_length_le {α : Type} (l : List α) (e : Int) :
    (jsSlice0 l e).length ≤ l.length := by
  unfold jsSlice0
  split <;> · rw [List.length_take]; omega

theorem pushStep_history_length (st : HistoryStep) (s : AppState) :
    (pushStep st s).history.length ≤ s.history.length + 1 := by
  show (jsSlice0 s.history (s.historyIndex + 1) ++ [st]).length ≤ _
  rw [List.length_append]
  have := jsSlice0_length_le s.history (s.historyIndex + 1)
  simp only [List.length_singleton]
  omega

theorem capHistory_history_length (s : AppState) :
    (capHistory s).history.length ≤ s.history.length := by
  unfold capHistory
  split
  · show (s.history.drop 1).length ≤ _
    rw [List.length_drop]
    omega
  · exact le_refl _

theorem getLast?_drop_one {α : Type} (l : List α) (h : 2 ≤ l.length) :
    (l.drop 1).getLast? = l.getLast? := by
  match l, h with
  | a :: b :: rest, _ => simp

theorem capHistory_getLast? (s : AppState) :
    (capHistory s).history.getLast? = s.history.getLast? := by
  unfold capHistory
  split
  · rename_i h
    show (s.history.drop 1).getLast? = _
    exact getLast?_drop_one s.history (by omega)
  · rfl

/-- One dispatch grows the history by at most one step. -/
theorem reducer_history_length (s : AppState) (ev : Event) :
    (imageReducer s ev).history.length ≤ s.history.length + 1 := by
  obtain ⟨now, salt, act⟩ := ev
  cases act with
  | addImage p =>
      show (addImageStep now salt p s).history.length ≤ _
      unfold addImageStep
      split
      · omega
      · exact le_trans (capHistory_history_length _)
          (pushStep_history_length _ _)
  | deleteImage tid =>
      show (deleteImageStep now salt tid s).history.length ≤ _
      unfold deleteImageStep
      split
      · omega
      · exact pushStep_history_length _ _
  | updateImage tid u =>
      show (updateImageStep tid u s).history.length ≤ _
      unfold updateImageStep
      split
      · omega
      · exact Nat.le_succ _
  | undo =>
      show (undoStep s).history.length ≤ _
      rw [undoStep_history]
      omega
  | redo =>
      show (redoStep s).history.length ≤ _
      rw [redoStep_history]
      omega
  | addHistoryStep a d =>
      exact le_trans (capHistory_history_length _)
        (pushStep_history_length _ _)
  | applyCrop =>
      show (applyCropStep now salt s).history.length ≤ _
      unfold applyCropStep
      dsimp only
      split
      · split
        · exact pushStep_history_length _ _
        · exact Nat.le_succ _
      · exact Nat.le_succ _
  | reorderLayer tid z =>
      show (reorderLayerStep now salt tid z s).history.length ≤ _
      unfold reorderLayerStep
      split
      · omega
      · split
        · omega
        · exact le_trans (capHistory_history_length _)
            (pushStep_history_length _ _)
  | toggleLayerVisibility tid =>
      show (toggleVisibilityStep now salt tid s).history.length ≤ _
      unfold toggleVisibilityStep
      split
      · omega
      · exact pushStep_history_length _ _
  | selectImage oid => exact Nat.le_succ _
  | setDragMode m => exact Nat.le_succ _
  | toggleAspectLock => exact Nat.le_succ _
  | setAspectLock b => exact Nat.le_succ _
  | startCrop tid => exact Nat.le_succ _
  | updateCropSelection sel => exact Nat.le_succ _
  | cancelCrop => exact Nat.le_succ _
  | toggleLayerSidebar => exact Nat.le_succ _
  | setLayerSidebar b => exact Nat.le_succ _
  | toggleDarkMode => exact Nat.le_succ _
  | setDarkMode b => exact Nat.le_succ _
  | setLoading b => exact Nat.le_succ _
  | resetState => exact Nat.zero_le _

theorem foldl_history_length (evs : List Event) :
    ∀ s : AppState, (List.foldl imageReducer s evs).history.length ≤
      s.history.length + evs.length := by
  induction evs with
  | nil => intro s; simp
  | cons ev evs ih =>
      intro s
      have h1 := reducer_history_length s ev
      have h2 := ih (imageReducer s ev)
      simp only [List.foldl_cons, List.length_cons]
      omega

/-- A history-appending operation whose guard fails is a silent no-op on
images, history and cursor. -/
theorem noAppend_fields (s : AppState) (ev : Event)
    (hkind : isAppendingKind ev.act) (hno : ¬ appendsHistory s ev) :
    (imageReducer s ev).history = s.history ∧
    (imageReducer s ev).historyIndex = s.historyIndex ∧
    (imageReducer s ev).images = s.images := by
  obtain ⟨now, salt, act⟩ := ev
  cases act with
  | addImage p =>
      have hdup : isDupAdd s now p = true := by
        cases h : isDupAdd s now p with
        | true => rfl
        | false => exact absurd h hno
      have hred : imageReducer s ⟨now, salt, .addImage p⟩ = s := addImageStep_of_dup hdup
      rw [hred]
      exact ⟨rfl, rfl, rfl⟩
  | deleteImage tid =>
      have hfind : s.images.findIdx? (fun img => decide (img.id = tid)) =
          none := by
        cases h : s.images.findIdx? (fun img => decide (img.id = tid)) with
        | none => rfl
        | some i =>
            exact absurd (show (s.images.findIdx?
              (fun img => decide (img.id = tid))).isSome = true from
                by rw [h]; rfl) hno
      have hred : imageReducer s ⟨now, salt, .deleteImage tid⟩ = s := by
        show deleteImageStep now salt tid s = s
        unfold deleteImageStep
        rw [hfind]
      rw [hred]
      exact ⟨rfl, rfl, rfl⟩
  | addHistoryStep a d => exact absurd trivial hno
  | applyCrop =>
      have hred : imageReducer s ⟨now, salt, .applyCrop⟩ = clearCrop s := by
        show applyCropStep now salt s = clearCrop s
        unfold applyCropStep
        cases h1 : s.cropState.imageId with
        | none => rfl
        | some tid =>
            cases h2 : s.cropState.selection with
            | none => rfl
            | some sel =>
                dsimp only
                cases hf : s.images.findIdx?
                    (fun img => decide (img.id = tid)) with
                | none => rfl
                | some i =>
                    exact absurd ⟨tid, sel, h1, h2, by rw [hf]; rfl⟩ hno
      rw [hred]
      exact ⟨rfl, rfl, rfl⟩
  | reorderLayer tid z =>
      have hfind : s.images.findIdx? (fun img => decide (img.id = tid)) =
          none := by
        cases h : s.images.findIdx? (fun img => decide (img.id = tid)) with
        | none => rfl
        | some i =>
            exact absurd (show (s.images.findIdx?
              (fun img => decide (img.id = tid))).isSome = true from
                by rw [h]; rfl) hno
      have hred : imageReducer s ⟨now, salt, .reorderLayer tid z⟩ = s := by
        show reorderLayerStep now salt tid z s = s
        unfold reorderLayerStep
        rw [hfind]
      rw [hred]
      exact ⟨rfl, rfl, rfl⟩
  | toggleLayerVisibility tid =>
      have hfind : s.images.findIdx? (fun img => decide (img.id = tid)) =
          none := by
        cases h : s.images.findIdx? (fun img => decide (img.id = tid)) with
        | none => rfl
        | some i =>
            exact absurd (show (s.images.findIdx?
              (fun img => decide (img.id = tid))).isSome = true from
                by rw [h]; rfl) hno
      have hred : imageReducer s ⟨now, salt, .toggleLayerVisibility tid⟩ = s := by
        show toggleVisibilityStep now salt tid s = s
        unfold toggleVisibilityStep
        rw [hfind]
      rw [hred]
      exact ⟨rfl, rfl, rfl⟩
  | updateImage tid u => exact hkind.elim
  | selectImage oid => exact hkind.elim
  | setDragMode m => exact hkind.elim
  | toggleAspectLock => exact hkind.elim
  | setAspectLock b => exact hkind.elim
  | undo => exact hkind.elim
  | redo => exact hkind.elim
  | startCrop tid => exact hkind.elim
  | updateCropSelection sel => exact hkind.elim
  | cancelCrop => exact hkind.elim
  | toggleLayerSidebar => exact hkind.elim
  | setLayerSidebar b => exact hkind.elim
  | toggleDarkMode => exact hkind.elim
  | setDarkMode b => exact hkind.elim
  | setLoading b => exact hkind.elim
  | resetState => exact hkind.elim

/-- Each appending-kind dispatch keeps the cursor on the last step and the
live images equal to the snapshot there. -/
theorem histAligned_step (s : AppState) (ev : Event)
    (hkind : isAppendingKind ev.act)
    (hcur : CursorAtEnd s) (hlast : ImagesMatchLast s) :
    CursorAtEnd (imageReducer s ev) ∧ ImagesMatchLast (imageReducer s ev) := by
  by_cases happ : appendsHistory s ev
  · obtain ⟨st, s1, hh, hix, him, hcase | hcase⟩ := append_shape s ev happ
    · rw [hcase]
      refine ⟨pushStep_cursor st s1, ?_⟩
      intro st' hst'
      have : (pushStep st s1).history.getLast? = some st :=
        List.getLast?_concat _
      rw [this] at hst'
      cases hst'
      exact him.symm
    · rw [hcase]
      refine ⟨capHistory_cursor (pushStep_cursor st s1), ?_⟩
      intro st' hst'
      rw [capHistory_getLast?] at hst'
      have : (pushStep st s1).history.getLast? = some st :=
        List.getLast?_concat _
      rw [this] at hst'
      cases hst'
      rw [capHistory_images]
      exact him.symm
  · obtain ⟨h1, h2, h3⟩ := noAppend_fields s ev hkind happ
    constructor
    · show (imageReducer s ev).historyIndex = _
      rw [h1, h2]
      exact hcur
    · intro st hst
      rw [h1] at hst
      rw [h3]
      exact hlast st hst

theorem run_histAligned_aux (evs : List Event) :
    ∀ s : AppState, (∀ ev ∈ evs, isAppendingKind ev.act) →
      CursorAtEnd s → ImagesMatchLast s →
      CursorAtEnd (List.foldl imageReducer s evs) ∧
      ImagesMatchLast (List.foldl imageReducer s evs) := by
  induction evs with
  | nil => exact fun s _ h1 h2 => ⟨h1, h2⟩
  | cons ev evs ih =>
      intro s hk h1 h2
      have hstep := histAligned_step s ev (hk ev (by simp)) h1 h2
      exact ih _ (fun e he => hk e (by simp [he])) hstep.1 hstep.2

theorem run_histAligned (evs : List Event)
    (happ : ∀ ev ∈ evs, isAppendingKind ev.act) :
    CursorAtEnd (run evs) ∧ ImagesMatchLast (run evs) :=
  run_histAligned_aux evs initialState happ
    (by unfold CursorAtEnd; decide)
    (fun st hst => by simp [initialState] at hst)

/-- Iterating Undo at least `historyIndex` many times parks the cursor at 0
with the images of the oldest retained snapshot. -/
theorem undo_iter_bottom (n : Nat) :
    ∀ s : AppState, 0 ≤ s.historyIndex →
      s.historyIndex < (s.history.length : Int) →
      s.historyIndex ≤ n →
      (∀ st, s.history.get? s.historyIndex.toNat = some st →
        s.images = st.images) →
      (undoStep^[n] s).history = s.history ∧
      (undoStep^[n] s).historyIndex = 0 ∧
      (∀ st, s.history.get? 0 = some st →
        (undoStep^[n] s).images = st.images) := by
  induction n with
  | zero =>
      intro s h0 h1 h2 halign
      have hz : s.historyIndex = 0 := by omega
      rw [Function.iterate_zero_apply]
      refine ⟨rfl, hz, ?_⟩
      intro st hst
      apply halign
      rw [hz]
      exact hst
  | succ n ih =>
      intro s h0 h1 h2 halign
      rw [Function.iterate_succ_apply]
      by_cases hpos : s.historyIndex > 0
      · have hlt : (s.historyIndex - 1).toNat < s.history.length := by omega
        obtain ⟨st0, hst0⟩ : ∃ st0,
            s.history.get? (s.historyIndex - 1).toNat = some st0 :=
          ⟨_, List.get?_eq_get hlt⟩
        have hu : undoStep s = { s with historyIndex := s.historyIndex - 1
                                        images := st0.images } := by
          unfold undoStep
          rw [if_pos hpos]
          dsimp only
          rw [hst0]
        rw [hu]
        exact ih _ (by show (0 : Int) ≤ s.historyIndex - 1; omega)
          (by show s.historyIndex - 1 < (s.history.length : Int); omega)
          (by show s.historyIndex - 1 ≤ (n : Int); omega)
          (by intro st hst
              show st0.images = st.images
              rw [hst0] at hst
              cases hst
              rfl)
      · have hu : undoStep s = s := by
          unfold undoStep
          rw [if_neg hpos]
        rw [hu]
        exact ih s h0 h1 (by omega) halign

/-- Iterating Redo enough times parks the cursor at the last step with that
snapshot's images. -/
theorem redo_iter_top (n : Nat) :
    ∀ s : AppState, 0 ≤ s.historyIndex →
      s.historyIndex < (s.history.length : Int) →
      (s.history.length : Int) - 1 - s.historyIndex ≤ n →
      (∀ st, s.history.get? s.historyIndex.toNat = some st →
        s.images = st.images) →
      (redoStep^[n] s).history = s.history ∧
      (redoStep^[n] s).historyIndex = (s.history.length : Int) - 1 ∧
      (∀ st, s.history.get? (s.history.length - 1) = some st →
        (redoStep^[n] s).images = st.images) := by
  induction n with
  | zero =>
      intro s h0 h1 h2 halign
      have hz : s.historyIndex = (s.history.length : Int) - 1 := by omega
      rw [Function.iterate_zero_apply]
      refine ⟨rfl, hz, ?_⟩
      intro st hst
      apply halign
      have : s.historyIndex.toNat = s.history.length - 1 := by omega
      rw [this]
      exact hst
  | succ n ih =>
      intro s h0 h1 h2 halign
      rw [Function.iterate_succ_apply]
      by_cases htop : s.historyIndex < (s.history.length : Int) - 1
      · have hlt : (s.historyIndex + 1).toNat < s.history.length := by omega
        obtain ⟨st0, hst0⟩ : ∃ st0,
            s.history.get? (s.historyIndex + 1).toNat = some st0 :=
          ⟨_, List.get?_eq_get hlt⟩
        have hr : redoStep s = { s with historyIndex := s.historyIndex + 1
                                        images := st0.images } := by
          unfold redoStep
          rw [if_pos htop]
          dsimp only
          rw [hst0]
        rw [hr]
        exact ih _ (by show (0 : Int) ≤ s.historyIndex + 1; omega)
          (by show s.historyIndex + 1 < (s.history.length : Int); omega)
          (by show (s.history.length : Int) - 1 - (s.historyIndex + 1) ≤ (n : Int)
              omega)
          (by intro st hst
              show st0.images = st.images
              rw [hst0] at hst
              cases hst
              rfl)
      · have hr : redoStep s = s := by
          unfold redoStep
          rw [if_neg htop]
        rw [hr]
        exact ih s h0 h1 (by omega) halign

/-- Claim C1 (amended): starting from the initial document, after any
sequence of N history-appending operations, performing N Undo actions
returns the image collection to the oldest retained snapshot — the state
recorded just after the first retained operation, not the pre-first-
operation empty collection (the initial state is never snapshotted, and the
Undo guard `cursor > 0` stops at the first step) — and performing N Undos
followed by N Redos returns the collection to the final value. -/
theorem c1_undo_redo_roundtrip (evs : List Event)
    (happ : ∀ ev ∈ evs, isAppendingKind ev.act)
    (hne : (run evs).history ≠ []) :
    ∃ first, (run evs).history.head? = some first ∧
      (undoStep^[evs.length] (run evs)).images = first.images ∧
      (redoStep^[evs.length] (undoStep^[evs.length] (run evs))).images =
        (run evs).images := by
  obtain ⟨hcur, hlast⟩ := run_histAligned evs happ
  set s := run evs with hs
  have hlen1 : 1 ≤ s.history.length := by
    cases h : s.history with
    | nil => exact absurd h hne
    | cons a l => simp [h]
  have hlenN : s.history.length ≤ evs.length := by
    have h := foldl_history_length evs initialState
    simpa [run, initialState] using h
  unfold CursorAtEnd at hcur
  have h0 : 0 ≤ s.historyIndex := by omega
  have h1 : s.historyIndex < (s.history.length : Int) := by omega
  have halign : ∀ st, s.history.get? s.historyIndex.toNat = some st →
      s.images = st.images := by
    intro st hst
    apply hlast
    rw [List.getLast?_eq_get?]
    have hnat : s.historyIndex.toNat = s.history.length - 1 := by omega
    rw [← hnat]
    exact hst
  obtain ⟨hUh, hUi, hUimg⟩ :=
    undo_iter_bottom evs.length s h0 h1 (by omega) halign
  obtain ⟨first, hfirst⟩ : ∃ first, s.history.get? 0 = some first :=
    ⟨_, List.get?_eq_get (by omega)⟩
  refine ⟨first, ?_, hUimg first hfirst, ?_⟩
  · rw [← List.get?_zero]
    exact hfirst
  · set u := undoStep^[evs.length] s with hu
    have hRal : ∀ st, u.history.get? u.historyIndex.toNat = some st →
        u.images = st.images := by
      intro st hst
      rw [hUh, hUi] at hst
      exact hUimg st hst
    obtain ⟨hRh, hRi, hRimg⟩ := redo_iter_top evs.length u
      (by rw [hUi]) (by rw [hUi, hUh]; omega)
      (by rw [hUi, hUh]; omega) hRal
    obtain ⟨st2, hst2⟩ : ∃ st2,
        s.history.get? (s.history.length - 1) = some st2 :=
      ⟨_, List.get?_eq_get (by omega)⟩
    have h3 := hRimg st2 (by rw [hUh]; exact hst2)
    have h4 : s.images = st2.images := by
      apply hlast
      rw [List.getLast?_eq_get?]
      exact hst2
    rw [h3]
    exact h4.symm

theorem c1_undo_redo_roundtrip_witness :
    ∃ first, (run [evAddA, evAddB]).history.head? = some first ∧
      (undoStep^[2] (run [evAddA, evAddB])).images = first.images ∧
      (redoStep^[2] (undoStep^[2] (run [evAddA, evAddB]))).images =
        (run [evAddA, evAddB]).images :=
  c1_undo_redo_roundtrip [evAddA, evAddB]
    (by intro ev hev
        simp only [List.mem_cons, List.not_mem_nil, or_false] at hev
        rcases hev with rfl | rfl <;> trivial)
    (by decide)

/-- Claim C1 counterexample: one AddImage then one Undo does not return the
collection to the initial (empty) value — the Undo guard `cursor > 0` makes
the single-step history unreachable below its first snapshot. -/
theorem c1_undo_counterexample :
    (undoStep^[1] (run [evAddA])).images ≠ initialState.images := by decide

theorem findIdx?_idxFrom_map_id (l : List ImageItem) (tid : ImgId)
    (f : Nat × ImageItem → ImageItem) (hf : ∀ p, (f p).id = p.2.id) :
    ((idxFrom 0 l).map f).findIdx? (fun img => decide (img.id = tid)) =
      l.findIdx? (fun img => decide (img.id = tid)) := by
  rw [List.findIdx?_map]
  conv_rhs => rw [← idxFrom_map_snd l 0, List.findIdx?_map]
  congr 1
  funext p
  simp only [Function.comp_apply, hf p]

theorem jsSlice0_atEnd (s : AppState) (h : CursorAtEnd s) :
    jsSlice0 s.history (s.historyIndex + 1) = s.history := by
  unfold CursorAtEnd at h
  unfold jsSlice0
  rw [if_neg (by omega)]
  have hh : (s.historyIndex + 1).toNat = s.history.length := by omega
  rw [hh, List.take_length]

/-- A visibility toggle of an existing image with the cursor at the end of
history appends one step without ever evicting (no cap check in its reducer
case), keeps the cursor at the end, and keeps the image present. -/
theorem toggle_grows (now : Int) (salt : Nat) (tid : ImgId) (s : AppState)
    (hcur : CursorAtEnd s)
    (hfind : (s.images.findIdx?
      (fun img => decide (img.id = tid))).isSome = true) :
    (toggleVisibilityStep now salt tid s).history.length =
      s.history.length + 1 ∧
    CursorAtEnd (toggleVisibilityStep now salt tid s) ∧
    ((toggleVisibilityStep now salt tid s).images.findIdx?
      (fun img => decide (img.id = tid))).isSome = true := by
  obtain ⟨i, hi⟩ := Option.isSome_iff_exists.mp hfind
  have ht : toggleVisibilityStep now salt tid s =
      pushStep
        (createHistoryStep now salt .toggleVisibility "表示/非表示を切替"
          ((idxFrom 0 s.images).map fun p : Nat × ImageItem =>
            if p.1 = i then { p.2 with visible := !p.2.visible } else p.2))
        { s with
          images := (idxFrom 0 s.images).map fun p : Nat × ImageItem =>
            if p.1 = i then { p.2 with visible := !p.2.visible } else p.2 } := by
    unfold toggleVisibilityStep
    rw [hi]
  rw [ht]
  refine ⟨?_, pushStep_cursor _ _, ?_⟩
  · show (jsSlice0 s.history (s.historyIndex + 1) ++ [_]).length = _
    rw [jsSlice0_atEnd s hcur, List.length_append]
    rfl
  · show (((idxFrom 0 s.images).map _).findIdx?
      (fun img : ImageItem => decide (img.id = tid))).isSome = true
    rw [findIdx?_idxFrom_map_id s.images tid _ (by intro p; split <;> rfl)]
    rw [hi]
    rfl

theorem c4_aux (k : Nat) :
    ∀ s : AppState, CursorAtEnd s →
      ((s.images.findIdx?
        (fun img => decide (img.id = (⟨0, 0⟩ : ImgId)))).isSome = true) →
      (List.foldl imageReducer s
        (List.replicate k evToggleA)).history.length =
        s.history.length + k := by
  induction k with
  | zero => intro s _ _; simp
  | succ k ih =>
      intro s hcur hfind
      rw [List.replicate_succ, List.foldl_cons]
      have hstep := toggle_grows 5000 0 ⟨0, 0⟩ s hcur hfind
      have hlen : (imageReducer s evToggleA).history.length =
          s.history.length + 1 := hstep.1
      have hcur2 : CursorAtEnd (imageReducer s evToggleA) := hstep.2.1
      have hfind2 : ((imageReducer s evToggleA).images.findIdx?
          (fun img => decide (img.id = (⟨0, 0⟩ : ImgId)))).isSome = true :=
        hstep.2.2
      have hrec := ih (imageReducer s evToggleA) hcur2 hfind2
      rw [hrec, hlen]
      omega

/-- Claim C4 is a code bug: `DELETE_IMAGE`, `APPLY_CROP` and
`TOGGLE_LAYER_VISIBILITY` append history steps without the 100-step cap
check, so 150 history-appending operations (one add followed by 149
visibility toggles of that image) retain all 150 steps instead of the
claimed 100, and the at-most-100 invariant fails. -/
theorem c4_history_cap_violated :
    (run capEvents).history.length = 150 ∧
    ¬ (run capEvents).history.length ≤ 100 := by
  have h0 : run capEvents =
      List.foldl imageReducer (imageReducer initialState evAddA)
        (List.replicate 149 evToggleA) := rfl
  have h1 : (imageReducer initialState evAddA).history.length = 1 := by decide
  have hcur : CursorAtEnd (imageReducer initialState evAddA) := by
    unfold CursorAtEnd
    decide
  have hfind : (((imageReducer initialState evAddA).images.findIdx?
      (fun img => decide (img.id = (⟨0, 0⟩ : ImgId)))).isSome = true) := by
    decide
  have hrec := c4_aux 149 (imageReducer initialState evAddA) hcur hfind
  rw [h0, hrec, h1]
  exact ⟨by omega, by omega⟩

theorem mem_eraseIdx_of_ne {α : Type} {l : List α} {a : α} {i : Nat}
    (hi : i < l.length) (hmem : a ∈ l) (hne : a ≠ l.get ⟨i, hi⟩) :
    a ∈ l.eraseIdx i := by
  rw [List.eraseIdx_eq_take_drop_succ]
  rw [List.mem_append]
  have hsplit := (List.take_append_drop i l).symm
  rw [hsplit, List.mem_append] at hmem
  rcases hmem with h | h
  · exact Or.inl h
  · rw [List.drop_eq_get_cons hi] at h
    rcases List.mem_cons.mp h with h | h
    · exact absurd h hne
    · exact Or.inr h

theorem mem_renumberZ_of_id {imgs : List ImageItem} {sid : ImgId}
    (h : ∃ img ∈ imgs, img.id = sid) :
    ∃ img ∈ renumberZ imgs, img.id = sid := by
  obtain ⟨img, hmem, hid⟩ := h
  obtain ⟨n, hn⟩ := List.get?_of_mem hmem
  have hr := idxFrom_map_get?
    (fun p => { p.2 with zIndex := (p.1 : ℚ) }) imgs n
  rw [hn] at hr
  exact ⟨_, List.get?_mem hr, hid⟩

theorem deleteImageStep_found {s : AppState} {tid : ImgId} {i : Nat}
    (now : Int) (salt : Nat)
    (hi : s.images.findIdx? (fun img => decide (img.id = tid)) = some i) :
    deleteImageStep now salt tid s =
      pushStep (createHistoryStep now salt .deleteImage "画像を削除"
          (renumberZ (s.images.eraseIdx i)))
        { s with images := renumberZ (s.images.eraseIdx i)
                 selectedImageId :=
                   if s.selectedImageId = some tid then none
                   else s.selectedImageId } := by
  unfold deleteImageStep
  rw [hi]

theorem c9_target_id {s : AppState} {tid : ImgId} {i : Nat}
    (hi : s.images.findIdx? (fun img => decide (img.id = tid)) = some i) :
    ∃ hlt : i < s.images.length, (s.images.get ⟨i, hlt⟩).id = tid := by
  obtain ⟨hlt, hp, hmin⟩ := List.findIdx?_eq_some_iff_getElem.mp hi
  exact ⟨hlt, by simpa using hp⟩

/-- Claim C9 (amended): DeleteImage keeps selection valid — it clears the
selection when the deleted image was selected and otherwise leaves it on a
still-existing image; Undo and Redo, by contrast, restore only the image
collection and leave `selectedImageId` untouched, so they can leave the
selection referencing an image absent from the restored collection. -/
theorem c9_selection_validity (now : Int) (salt : Nat) (tid : ImgId)
    (s : AppState) (h : SelInv s) :
    SelInv (deleteImageStep now salt tid s) ∧
    (undoStep s).selectedImageId = s.selectedImageId ∧
    (redoStep s).selectedImageId = s.selectedImageId := by
  refine ⟨?_, undoStep_selected s, redoStep_selected s⟩
  intro sid hsid
  cases hfind : s.images.findIdx? (fun img => decide (img.id = tid)) with
  | none =>
      have hno : deleteImageStep now salt tid s = s := by
        unfold deleteImageStep
        rw [hfind]
      rw [hno] at hsid ⊢
      exact h sid hsid
  | some i =>
      rw [deleteImageStep_found now salt hfind] at hsid ⊢
      have hsid' : (if s.selectedImageId = some tid then none
          else s.selectedImageId) = some sid := hsid
      by_cases hsel : s.selectedImageId = some tid
      · rw [if_pos hsel] at hsid'
        exact absurd hsid' (by simp)
      · rw [if_neg hsel] at hsid'
        obtain ⟨hlt, htid⟩ := c9_target_id hfind
        obtain ⟨img, hmem, hid⟩ := h sid hsid'
        have hne : img ≠ s.images.get ⟨i, hlt⟩ := by
          intro heq
          apply hsel
          have hst : sid = tid := by rw [← hid, heq]; exact htid
          rw [hsid', hst]
        exact mem_renumberZ_of_id ⟨img, mem_eraseIdx_of_ne hlt hmem hne, hid⟩

theorem c9_selection_validity_witness :
    SelInv (deleteImageStep 9 0 ⟨0, 0⟩ (run [evAddA, evAddB])) ∧
    (undoStep (run [evAddA, evAddB])).selectedImageId =
      (run [evAddA, evAddB]).selectedImageId :=
  ⟨(c9_selection_validity 9 0 ⟨0, 0⟩ (run [evAddA, evAddB])
      (by intro sid hsid
          refine ⟨⟨⟨1000, 0⟩, "b", 0, 0, 100, 100, 100, 100, 1, true, true,
            none, none⟩, by decide, ?_⟩
          have : (run [evAddA, evAddB]).selectedImageId =
              some (⟨1000, 0⟩ : ImgId) := by decide
          rw [this] at hsid
          cases hsid
          rfl)).1,
   (c9_selection_validity 9 0 ⟨0, 0⟩ (run [evAddA, evAddB])
      (by intro sid hsid
          refine ⟨⟨⟨1000, 0⟩, "b", 0, 0, 100, 100, 100, 100, 1, true, true,
            none, none⟩, by decide, ?_⟩
          have : (run [evAddA, evAddB]).selectedImageId =
              some (⟨1000, 0⟩ : ImgId) := by decide
          rw [this] at hsid
          cases hsid
          rfl)).2.1⟩

/-- Claim C9 counterexample: add image A, add image B (B becomes selected),
then Undo: the collection is restored to just A while the selection still
references B, which is no longer present. -/
theorem c9_selection_counterexample :
    (run [evAddA, evAddB, evUndo]).selectedImageId =
      some (⟨1000, 0⟩ : ImgId) ∧
    ∀ img ∈ (run [evAddA, evAddB, evUndo]).images,
      img.id ≠ (⟨1000, 0⟩ : ImgId) := by decide

theorem aspectAdjust_se (ar : ℚ) (o : ResizeOut) :
    (aspectAdjust .se ar o).x = o.x ∧ (aspectAdjust .se ar o).y = o.y := by
  unfold aspectAdjust
  simp only [reduceCtorEq, false_or, or_self, ite_false, ite_true,
    eq_self_iff_true]
  split_ifs <;> exact ⟨rfl, rfl⟩

theorem clampLeft_of_nonneg {o : ResizeOut} (hx : 0 ≤ o.x) :
    clampLeft o = o := by
  unfold clampLeft
  rw [if_neg (by linarith)]

theorem clampTop_of_nonneg {o : ResizeOut} (hy : 0 ≤ o.y) :
    clampTop o = o := by
  unfold clampTop
  rw [if_neg (by linarith)]

theorem clampRight_xy (bw : ℚ) (o : ResizeOut) :
    (clampRight bw o).x = o.x ∧ (clampRight bw o).y = o.y := by
  unfold clampRight
  split <;> exact ⟨rfl, rfl⟩

theorem clampBottom_xy (bh : ℚ) (o : ResizeOut) :
    (clampBottom bh o).x = o.x ∧ (clampBottom bh o).y = o.y := by
  unfold clampBottom
  split <;> exact ⟨rfl, rfl⟩

theorem boundaryLimit_xy (bw bh : ℚ) (o : ResizeOut) (hx : 0 ≤ o.x)
    (hy : 0 ≤ o.y) :
    (boundaryLimit bw bh o).x = o.x ∧ (boundaryLimit bw bh o).y = o.y := by
  unfold boundaryLimit
  rw [clampLeft_of_nonneg hx, clampTop_of_nonneg hy]
  have h1 := clampBottom_xy bh (clampRight bw o)
  have h2 := clampRight_xy bw o
  exact ⟨h1.1.trans h2.1, h1.2.trans h2.2⟩

/-- Helper: on the full resize path the se handle never
moves the top-left corner of an image anchored inside the canvas, for any
pointer delta and any aspect-lock setting. -/
theorem se_anchor_aux (alocked shiftKey : Bool)
    (ow oh bw bh x0 y0 w0 h0 dx dy : ℚ) (hx : 0 ≤ x0) (hy : 0 ≤ y0) :
    (resizeFull .se alocked shiftKey ow oh bw bh x0 y0 w0 h0 dx dy).x = x0 ∧
    (resizeFull .se alocked shiftKey ow oh bw bh x0 y0 w0 h0 dx dy).y =
      y0 := by
  unfold resizeFull resizeFullPre
  dsimp only
  cases hA : (alocked && !shiftKey) with
  | false =>
      simp only [hA, Bool.false_eq_true, if_false]
      have hb := boundaryLimit_xy bw bh (resizeRaw .se x0 y0 w0 h0 dx dy)
        hx hy
      exact hb
  | true =>
      simp only [hA, if_true]
      have ha := aspectAdjust_se (ow / oh) (resizeRaw .se x0 y0 w0 h0 dx dy)
      have hb := boundaryLimit_xy bw bh
        (aspectAdjust .se (ow / oh) (resizeRaw .se x0 y0 w0 h0 dx dy))
        (by rw [ha.1]; exact hx) (by rw [ha.2]; exact hy)
      exact ⟨hb.1.trans ha.1, hb.2.trans ha.2⟩

theorem resizeRaw_nw_sums (x0 y0 w0 h0 dx dy : ℚ) :
    (resizeRaw .nw x0 y0 w0 h0 dx dy).x +
      (resizeRaw .nw x0 y0 w0 h0 dx dy).width = x0 + w0 ∧
    (resizeRaw .nw x0 y0 w0 h0 dx dy).y +
      (resizeRaw .nw x0 y0 w0 h0 dx dy).height = y0 + h0 := by
  unfold resizeRaw
  dsimp only
  constructor <;> ring

theorem aspectAdjust_nw_sums (ar : ℚ) (o : ResizeOut) :
    (aspectAdjust .nw ar o).x + (aspectAdjust .nw ar o).width =
      o.x + o.width ∧
    (aspectAdjust .nw ar o).y + (aspectAdjust .nw ar o).height =
      o.y + o.height := by
  unfold aspectAdjust
  simp only [reduceCtorEq, false_or, or_self, ite_false, ite_true,
    eq_self_iff_true]
  split_ifs <;> constructor <;> dsimp only <;> ring

theorem clampLeft_sums (o : ResizeOut) :
    (clampLeft o).x + (clampLeft o).width = o.x + o.width ∧
    (clampLeft o).y + (clampLeft o).height = o.y + o.height := by
  unfold clampLeft
  split <;> constructor <;> dsimp only <;> ring

theorem clampTop_sums (o : ResizeOut) :
    (clampTop o).x + (clampTop o).width = o.x + o.width ∧
    (clampTop o).y + (clampTop o).height = o.y + o.height := by
  unfold clampTop
  split <;> constructor <;> dsimp only <;> ring

theorem clampRight_of_le {bw : ℚ} {o : ResizeOut}
    (h : o.x + o.width ≤ bw) : clampRight bw o = o := by
  unfold clampRight
  rw [if_neg (by linarith)]

theorem clampBottom_of_le {bh : ℚ} {o : ResizeOut}
    (h : o.y + o.height ≤ bh) : clampBottom bh o = o := by
  unfold clampBottom
  rw [if_neg (by linarith)]

theorem boundaryLimit_sums (bw bh : ℚ) (o : ResizeOut)
    (hw : o.x + o.width ≤ bw) (hh : o.y + o.height ≤ bh) :
    (boundaryLimit bw bh o).x + (boundaryLimit bw bh o).width =
      o.x + o.width ∧
    (boundaryLimit bw bh o).y + (boundaryLimit bw bh o).height =
      o.y + o.height := by
  unfold boundaryLimit
  have hL := clampLeft_sums o
  have hT := clampTop_sums (clampLeft o)
  have hxw : (clampTop (clampLeft o)).x + (clampTop (clampLeft o)).width ≤
      bw := by rw [hT.1, hL.1]; exact hw
  have hyh : (clampTop (clampLeft o)).y +
      (clampTop (clampLeft o)).height ≤ bh := by
    rw [hT.2, hL.2]; exact hh
  rw [clampRight_of_le hxw, clampBottom_of_le hyh]
  exact ⟨hT.1.trans hL.1, hT.2.trans hL.2⟩

/-- Helper: on the full resize path the nw handle
keeps the bottom-right corner of an in-bounds image fixed — through the raw
computation, the aspect-ratio offset correction and the boundary limiting —
PROVIDED the width and height reaching the final minimum-size re-clamp are
already at least 50; when that floor engages it grows the size without
compensating the position, moving the bottom-right corner (see the
counterexample). -/
theorem nw_anchor_aux (alocked shiftKey : Bool)
    (ow oh bw bh x0 y0 w0 h0 dx dy : ℚ)
    (hx : 0 ≤ x0) (hy : 0 ≤ y0)
    (hxw : x0 + w0 ≤ bw) (hyh : y0 + h0 ≤ bh)
    (hwmin : 50 ≤ (resizeFullPre .nw alocked shiftKey ow oh bw bh
      x0 y0 w0 h0 dx dy).width)
    (hhmin : 50 ≤ (resizeFullPre .nw alocked shiftKey ow oh bw bh
      x0 y0 w0 h0 dx dy).height) :
    (resizeFull .nw alocked shiftKey ow oh bw bh x0 y0 w0 h0 dx dy).x +
      (resizeFull .nw alocked shiftKey ow oh bw bh x0 y0 w0 h0 dx dy).width =
      x0 + w0 ∧
    (resizeFull .nw alocked shiftKey ow oh bw bh x0 y0 w0 h0 dx dy).y +
      (resizeFull .nw alocked shiftKey ow oh bw bh
        x0 y0 w0 h0 dx dy).height = y0 + h0 := by
  have hfull : resizeFull .nw alocked shiftKey ow oh bw bh x0 y0 w0 h0 dx dy =
      { resizeFullPre .nw alocked shiftKey ow oh bw bh x0 y0 w0 h0 dx dy with
        width := max 50 (resizeFullPre .nw alocked shiftKey ow oh bw bh
          x0 y0 w0 h0 dx dy).width
        height := max 50 (resizeFullPre .nw alocked shiftKey ow oh bw bh
          x0 y0 w0 h0 dx dy).height } := rfl
  rw [hfull]
  dsimp only
  rw [max_eq_right hwmin, max_eq_right hhmin]
  show (resizeFullPre .nw alocked shiftKey ow oh bw bh
      x0 y0 w0 h0 dx dy).x + _ = _ ∧ _
  unfold resizeFullPre
  dsimp only
  cases hA : (alocked && !shiftKey) with
  | false =>
      simp only [hA, Bool.false_eq_true, if_false]
      have hraw := resizeRaw_nw_sums x0 y0 w0 h0 dx dy
      have hb := boundaryLimit_sums bw bh (resizeRaw .nw x0 y0 w0 h0 dx dy)
        (by rw [hraw.1]; exact hxw) (by rw [hraw.2]; exact hyh)
      exact ⟨hb.1.trans hraw.1, hb.2.trans hraw.2⟩
  | true =>
      simp only [hA, if_true]
      have hraw := resizeRaw_nw_sums x0 y0 w0 h0 dx dy
      have ha := aspectAdjust_nw_sums (ow / oh)
        (resizeRaw .nw x0 y0 w0 h0 dx dy)
      have hb := boundaryLimit_sums bw bh
        (aspectAdjust .nw (ow / oh) (resizeRaw .nw x0 y0 w0 h0 dx dy))
        (by rw [ha.1, hraw.1]; exact hxw)
        (by rw [ha.2, hraw.2]; exact hyh)
      exact ⟨(hb.1.trans ha.1).trans hraw.1, (hb.2.trans ha.2).trans hraw.2⟩

/-- Claim C6 counterexample: an in-bounds 50×100 image (natural size 50×100,
aspect locked) resized by the nw handle with pointer delta (-50, 50) on an
800×600 canvas: the aspect correction shrinks the width to 25, the final
minimum-size re-clamp lifts it back to 50 without moving x, and the
bottom-right corner drifts from 150 to 175. -/
theorem c6_nw_anchor_counterexample :
    resizeFull .nw true false 50 100 800 600 100 100 50 100 (-50) 50 =
      ⟨125, 150, 50, 50⟩ ∧
    (resizeFull .nw true false 50 100 800 600 100 100 50 100 (-50) 50).x +
      (resizeFull .nw true false 50 100 800 600 100 100 50 100
        (-50) 50).width ≠ (100 : ℚ) + 50 ∧
    (0 : ℚ) ≤ 100 ∧ (0 : ℚ) ≤ 100 ∧ (100 : ℚ) + 50 ≤ 800 ∧
    (100 : ℚ) + 100 ≤ 600 := by
  have h : resizeFull .nw true false 50 100 800 600 100 100 50 100
      (-50) 50 = ⟨125, 150, 50, 50⟩ := by
    norm_num [resizeFull, resizeFullPre, resizeRaw, aspectAdjust,
      boundaryLimit, clampLeft, clampTop, clampRight, clampBottom]
  refine ⟨h, ?_, by norm_num, by norm_num, by norm_num, by norm_num⟩
  rw [h]
  norm_num

/-- Claim C6 (amended): with the image anchored inside the canvas, for any
pointer delta and any aspect-lock setting the se handle keeps the top-left
corner (x, y) fixed through the raw computation, the aspect-ratio offset
correction and the boundary limiting; the nw handle keeps the bottom-right
corner (x + width, y + height) fixed PROVIDED the dimensions reaching the
final minimum-size re-clamp are already at least 50 — when that floor
engages it grows the size without compensating the position and the
bottom-right corner moves (see the counterexample). -/
theorem c6_resize_anchors (alocked shiftKey : Bool)
    (ow oh bw bh x0 y0 w0 h0 dx dy : ℚ)
    (hx : 0 ≤ x0) (hy : 0 ≤ y0) :
    ((resizeFull .se alocked shiftKey ow oh bw bh x0 y0 w0 h0 dx dy).x =
        x0 ∧
      (resizeFull .se alocked shiftKey ow oh bw bh x0 y0 w0 h0 dx dy).y =
        y0) ∧
    (x0 + w0 ≤ bw → y0 + h0 ≤ bh →
      50 ≤ (resizeFullPre .nw alocked shiftKey ow oh bw bh
        x0 y0 w0 h0 dx dy).width →
      50 ≤ (resizeFullPre .nw alocked shiftKey ow oh bw bh
        x0 y0 w0 h0 dx dy).height →
      (resizeFull .nw alocked shiftKey ow oh bw bh x0 y0 w0 h0 dx dy).x +
        (resizeFull .nw alocked shiftKey ow oh bw bh
          x0 y0 w0 h0 dx dy).width = x0 + w0 ∧
      (resizeFull .nw alocked shiftKey ow oh bw bh x0 y0 w0 h0 dx dy).y +
        (resizeFull .nw alocked shiftKey ow oh bw bh
          x0 y0 w0 h0 dx dy).height = y0 + h0) :=
  ⟨se_anchor_aux alocked shiftKey ow oh bw bh x0 y0 w0 h0 dx dy hx hy,
   fun hxw hyh hwmin hhmin =>
     nw_anchor_aux alocked shiftKey ow oh bw bh x0 y0 w0 h0 dx dy
       hx hy hxw hyh hwmin hhmin⟩

theorem c6_resize_anchors_witness :
    (((resizeFull .se true false 100 100 800 600 10 20 100 100
        (-30) (-30)).x = 10 ∧
      (resizeFull .se true false 100 100 800 600 10 20 100 100
        (-30) (-30)).y = 20) ∧
    ((resizeFull .nw true false 100 100 800 600 10 20 100 100
        (-30) (-30)).x +
      (resizeFull .nw true false 100 100 800 600 10 20 100 100
        (-30) (-30)).width = 10 + 100 ∧
      (resizeFull .nw true false 100 100 800 600 10 20 100 100
        (-30) (-30)).y +
      (resizeFull .nw true false 100 100 800 600 10 20 100 100
        (-30) (-30)).height = 20 + 100)) := by
  have h := c6_resize_anchors true false 100 100 800 600 10 20 100 100
    (-30) (-30) (by norm_num) (by norm_num)
  exact ⟨h.1, h.2 (by norm_num) (by norm_num)
    (by norm_num [resizeFullPre, resizeRaw, aspectAdjust, boundaryLimit,
      clampLeft, clampTop, clampRight, clampBottom])
    (by norm_num [resizeFullPre, resizeRaw, aspectAdjust, boundaryLimit,
      clampLeft, clampTop, clampRight, clampBottom])⟩


theorem eraseIdx_append_cons {α : Type} (pre post : List α) (t : α) :
    (pre ++ t :: post).eraseIdx pre.length = pre ++ post := by
  induction pre with
  | nil => rfl
  | cons a pre ih => simpa [List.eraseIdx] using ih

theorem findIdx?_locate {pre post : List ImageItem} {t : ImageItem}
    {tid : ImgId} (hfresh : ∀ p ∈ pre, p.id ≠ tid) (htid : t.id = tid) :
    (pre ++ t :: post).findIdx? (fun img => decide (img.id = tid)) =
      some pre.length := by
  rw [List.findIdx?_append]
  have h1 : pre.findIdx? (fun img => decide (img.id = tid)) = none := by
    rw [List.findIdx?_eq_none_iff]
    intro x hx
    simp [hfresh x hx]
  rw [h1, List.findIdx?_cons]
  simp [htid]

/-- Claim C3 (amended): in a dense document whose array order agrees with
the stacking order (the image at array position i holds zIndex i — deletion
renumbers by array position, so this alignment is required; see the
counterexample for a dense but scrambled document), DeleteImage of the
image holding zIndex k leaves every remaining image with a smaller zIndex
unchanged and decrements every remaining image with a larger zIndex by
one. -/
theorem c3_delete_renumber (now : Int) (salt : Nat) (s : AppState)
    (tid : ImgId) (pre post : List ImageItem) (t : ImageItem)
    (hsplit : s.images = pre ++ t :: post)
    (hfresh : ∀ p ∈ pre, p.id ≠ tid)
    (htid : t.id = tid)
    (hsorted : s.images.map (·.zIndex) =
      (List.range s.images.length).map (fun k : Nat => (k : ℚ))) :
    ∀ i img, (pre ++ post).get? i = some img →
      ∃ img2, (deleteImageStep now salt tid s).images.get? i = some img2 ∧
        img2.id = img.id ∧
        (img.zIndex < t.zIndex → img2.zIndex = img.zIndex) ∧
        (t.zIndex < img.zIndex → img2.zIndex = img.zIndex - 1) := by
  have hz : ∀ j imgj, s.images.get? j = some imgj →
      imgj.zIndex = (j : ℚ) := by
    intro j imgj hj
    have hjlt : j < s.images.length := by
      by_contra hge
      rw [List.get?_eq_none.mpr (by omega)] at hj
      exact Option.noConfusion hj
    have h1 : (s.images.map (·.zIndex))[j]? = some imgj.zIndex := by
      rw [List.getElem?_map, ← List.get?_eq_getElem?, hj]
      rfl
    conv_lhs at h1 => rw [hsorted]
    rw [List.getElem?_map, List.getElem?_range hjlt] at h1
    simp only [Option.map_some'] at h1
    exact (Option.some.inj h1).symm
  have hfind : s.images.findIdx? (fun img => decide (img.id = tid)) =
      some pre.length := by
    rw [hsplit]
    exact findIdx?_locate hfresh htid
  have hdel : (deleteImageStep now salt tid s).images =
      renumberZ (pre ++ post) := by
    rw [deleteImageStep_found now salt hfind]
    show renumberZ (s.images.eraseIdx pre.length) = _
    rw [hsplit, eraseIdx_append_cons]
  have htz : t.zIndex = (pre.length : ℚ) := by
    apply hz pre.length
    rw [hsplit, List.get?_append_right (le_refl _)]
    simp
  intro i img hi
  have hri : (renumberZ (pre ++ post)).get? i =
      some { img with zIndex := (i : ℚ) } := by
    have h := idxFrom_map_get?
      (fun p => { p.2 with zIndex := (p.1 : ℚ) }) (pre ++ post) i
    rw [hi] at h
    exact h
  refine ⟨{ img with zIndex := (i : ℚ) }, by rw [hdel]; exact hri, rfl,
    ?_, ?_⟩
  · intro hlt
    show (i : ℚ) = img.zIndex
    by_cases hcase : i < pre.length
    · have himgz : img.zIndex = (i : ℚ) := by
        apply hz i
        rw [List.get?_append hcase] at hi
        rw [hsplit, List.get?_append (by omega)]
        exact hi
      exact himgz.symm
    · exfalso
      have himgz : img.zIndex = ((i + 1 : Nat) : ℚ) := by
        apply hz (i + 1)
        rw [List.get?_append_right (by omega)] at hi
        rw [hsplit, List.get?_append_right (by omega)]
        have harith : i + 1 - pre.length = (i - pre.length) + 1 := by omega
        rw [harith]
        exact hi
      rw [himgz, htz] at hlt
      have : i + 1 < pre.length := by exact_mod_cast hlt
      omega
  · intro hgt
    show (i : ℚ) = img.zIndex - 1
    by_cases hcase : i < pre.length
    · exfalso
      have himgz : img.zIndex = (i : ℚ) := by
        apply hz i
        rw [List.get?_append hcase] at hi
        rw [hsplit, List.get?_append (by omega)]
        exact hi
      rw [himgz, htz] at hgt
      have : pre.length < i := by exact_mod_cast hgt
      omega
    · have himgz : img.zIndex = ((i + 1 : Nat) : ℚ) := by
        apply hz (i + 1)
        rw [List.get?_append_right (by omega)] at hi
        rw [hsplit, List.get?_append_right (by omega)]
        have harith : i + 1 - pre.length = (i - pre.length) + 1 := by omega
        rw [harith]
        exact hi
      rw [himgz]
      push_cast
      ring

theorem c3_delete_renumber_witness :
    ∃ img2, (deleteImageStep 7 0 ⟨0, 0⟩
        (run [evAddA, evAddB])).images.get? 0 = some img2 ∧
      img2.id = (⟨1000, 0⟩ : ImgId) ∧ img2.zIndex = (1 : ℚ) - 1 := by
  obtain ⟨img2, h1, h2, h3, h4⟩ :=
    c3_delete_renumber 7 0 (run [evAddA, evAddB]) ⟨0, 0⟩ []
      [⟨⟨1000, 0⟩, "b", 0, 0, 100, 100, 100, 100, 1, true, true, none,
        none⟩]
      ⟨⟨0, 0⟩, "a", 0, 0, 100, 100, 100, 100, 0, true, true, none, none⟩
      (by decide) (by simp) (by decide) (by decide) 0
      ⟨⟨1000, 0⟩, "b", 0, 0, 100, 100, 100, 100, 1, true, true, none,
        none⟩ (by decide)
  exact ⟨img2, h1, h2, h4 (by norm_num)⟩

/-- Claim C3 counterexample: in the dense document `scrambled` (array order
a, b, c with zIndex 1, 0, 2), deleting the image c that holds zIndex 2
renumbers by array position and moves image a from zIndex 1 — which was
below the deleted index — to 0, and image b from 0 to 1, scrambling the
relative stacking order. -/
theorem c3_delete_renumber_counterexample :
    denseZ scrambled.images ∧
    scrambled.images.map (fun i => (i.id, i.zIndex)) =
      [(⟨0, 0⟩, 1), (⟨1, 0⟩, 0), (⟨2, 0⟩, 2)] ∧
    (deleteImageStep 7 0 ⟨2, 0⟩ scrambled).images.map
      (fun i => (i.id, i.zIndex)) = [(⟨0, 0⟩, 0), (⟨1, 0⟩, 1)] := by decide


theorem zList_idxFrom_map (f : Nat × ImageItem → ImageItem)
    (hf : ∀ p, (f p).zIndex = p.2.zIndex) (l : List ImageItem) :
    ∀ k, zList ((idxFrom k l).map f) = zList l := by
  induction l with
  | nil => intro k; rfl
  | cons a l ih =>
      intro k
      show (f (k, a)).zIndex :: zList ((idxFrom (k + 1) l).map f) =
        a.zIndex :: zList l
      rw [hf, ih]

theorem denseZ_of_same {l l2 : List ImageItem} (hlen : l2.length = l.length)
    (hzl : zList l2 = zList l) (hD : denseZ l) : denseZ l2 := by
  unfold denseZ at *
  rw [hzl, hlen]
  exact hD

theorem denseZ_append {l : List ImageItem} {img : ImageItem}
    (hD : denseZ l) (himg : img.zIndex = (l.length : ℚ)) :
    denseZ (l ++ [img]) := by
  unfold denseZ zList at *
  rw [List.map_append, List.length_append]
  show ((l.map (·.zIndex)) ++ [img.zIndex]).Perm _
  rw [List.length_singleton, List.range_succ, List.map_append]
  refine List.Perm.append hD ?_
  rw [show ([img.zIndex] : List ℚ) = [((l.length : ℚ))] from by rw [himg]]
  rfl

theorem zList_renumberZ (imgs : List ImageItem) :
    zList (renumberZ imgs) =
      (List.range imgs.length).map (fun k : Nat => (k : ℚ)) := by
  unfold zList renumberZ
  rw [List.map_map]
  show (idxFrom 0 imgs).map ((fun k : Nat => (k : ℚ)) ∘ Prod.fst) = _
  rw [← List.map_map, idxFrom_map_fst, ← List.range_eq_range']

theorem denseZ_renumberZ (imgs : List ImageItem) :
    denseZ (renumberZ imgs) := by
  unfold denseZ
  have hlen : (renumberZ imgs).length = imgs.length := by
    unfold renumberZ
    rw [List.length_map, idxFrom_length]
  rw [hlen, zList_renumberZ]

/-- The renormalization ranks: positions in the stable sort form a
permutation of 0..N-1. -/
theorem rank_perm_range (sorted : List (Nat × ImageItem)) (n : Nat)
    (hlen : sorted.length = n)
    (hfst : (sorted.map Prod.fst).Perm (List.range n)) :
    ((List.range n).map
      (fun i => sorted.findIdx (fun q => decide (q.1 = i)))).Perm
      (List.range n) := by
  have hnodupfst : (sorted.map Prod.fst).Nodup :=
    hfst.nodup_iff.mpr (List.nodup_range n)
  have hmem : ∀ i, i < n → ∃ q ∈ sorted, q.1 = i := by
    intro i hi
    have h1 : i ∈ sorted.map Prod.fst :=
      hfst.mem_iff.mpr (List.mem_range.mpr hi)
    obtain ⟨q, hq, hq1⟩ := List.mem_map.mp h1
    exact ⟨q, hq, hq1⟩
  have hrank_lt : ∀ i, i < n →
      sorted.findIdx (fun q => decide (q.1 = i)) < n := by
    intro i hi
    obtain ⟨q, hq, hq1⟩ := hmem i hi
    have h2 := List.findIdx_lt_length_of_exists
      (p := fun q => decide (q.1 = i)) ⟨q, hq, by simp [hq1]⟩
    omega
  have hrank_fst : ∀ i, i < n → ∀ hw : sorted.findIdx
        (fun q => decide (q.1 = i)) < sorted.length,
      (sorted.get ⟨sorted.findIdx (fun q => decide (q.1 = i)), hw⟩).1 =
        i := by
    intro i hi hw
    have h3 := List.findIdx_get (w := hw)
    simpa using h3
  have hinj : ∀ i ∈ List.range n, ∀ j ∈ List.range n,
      sorted.findIdx (fun q => decide (q.1 = i)) =
        sorted.findIdx (fun q => decide (q.1 = j)) → i = j := by
    intro i hi j hj heq
    rw [List.mem_range] at hi hj
    have hwi : sorted.findIdx (fun q => decide (q.1 = i)) <
        sorted.length := by rw [hlen]; exact hrank_lt i hi
    have hwj : sorted.findIdx (fun q => decide (q.1 = j)) <
        sorted.length := by rw [hlen]; exact hrank_lt j hj
    have hfi := hrank_fst i hi hwi
    have hfj := hrank_fst j hj hwj
    rw [← hfi, ← hfj]
    exact congrArg (fun z : Nat × ImageItem => z.1)
      (congrArg sorted.get (Fin.ext heq))
  apply (List.perm_ext_iff_of_nodup ?_ (List.nodup_range n)).mpr
  · intro a
    constructor
    · intro ha
      obtain ⟨i, hi, rfl⟩ := List.mem_map.mp ha
      rw [List.mem_range] at hi ⊢
      exact hrank_lt i hi
    · intro ha
      rw [List.mem_range] at ha
      have halen : a < sorted.length := by omega
      set q := sorted.get ⟨a, halen⟩ with hq
      have hqmem : q ∈ sorted := List.get_mem sorted a halen
      have hq1 : q.1 < n := by
        have h4 : q.1 ∈ sorted.map Prod.fst := List.mem_map.mpr ⟨q, hqmem, rfl⟩
        exact List.mem_range.mp (hfst.mem_iff.mp h4)
      have hw : sorted.findIdx (fun p => decide (p.1 = q.1)) <
          sorted.length := by rw [hlen]; exact hrank_lt q.1 hq1
      have hfq := hrank_fst q.1 hq1 hw
      have hgetinj := List.nodup_iff_injective_get.mp hnodupfst
      have hra : sorted.findIdx (fun p => decide (p.1 = q.1)) = a := by
        have hcast : ((sorted.map Prod.fst).get
            ⟨sorted.findIdx (fun p => decide (p.1 = q.1)),
              by rw [List.length_map]; exact hw⟩) =
            ((sorted.map Prod.fst).get ⟨a,
              by rw [List.length_map]; exact halen⟩) := by
          rw [List.get_map, List.get_map]
          show (sorted.get _).1 = (sorted.get _).1
          rw [hfq]
        have := hgetinj hcast
        exact Fin.mk.inj_iff.mp this
      exact List.mem_map.mpr ⟨q.1, List.mem_range.mpr hq1, hra⟩
  · exact List.Nodup.map_on hinj (List.nodup_range n)

theorem denseZ_renormalizeZ (imgs : List ImageItem) :
    denseZ (renormalizeZ imgs) := by
  unfold denseZ
  have hlen : (renormalizeZ imgs).length = imgs.length := by
    unfold renormalizeZ
    rw [List.length_map, idxFrom_length]
  rw [hlen]
  have hzl : zList (renormalizeZ imgs) = (List.range imgs.length).map
      (fun i => (((List.insertionSort zKeyLe (idxFrom 0 imgs)).findIdx
        (fun q => decide (q.1 = i)) : Nat) : ℚ)) := by
    unfold zList renormalizeZ
    rw [List.map_map]
    show (idxFrom 0 imgs).map
      ((fun i : Nat => (((List.insertionSort zKeyLe
        (idxFrom 0 imgs)).findIdx (fun q => decide (q.1 = i)) : Nat) : ℚ))
          ∘ Prod.fst) = _
    rw [← List.map_map, idxFrom_map_fst, ← List.range_eq_range']
  rw [hzl]
  have hsortlen : (List.insertionSort zKeyLe (idxFrom 0 imgs)).length =
      imgs.length := by
    rw [(List.perm_insertionSort zKeyLe (idxFrom 0 imgs)).length_eq,
      idxFrom_length]
  have hfst : ((List.insertionSort zKeyLe (idxFrom 0 imgs)).map
      Prod.fst).Perm (List.range imgs.length) := by
    have h1 := (List.perm_insertionSort zKeyLe (idxFrom 0 imgs)).map
      Prod.fst
    rw [idxFrom_map_fst, ← List.range_eq_range'] at h1
    exact h1
  have hkey := rank_perm_range (List.insertionSort zKeyLe (idxFrom 0 imgs))
    imgs.length hsortlen hfst
  have hmap := hkey.map (fun k : Nat => (k : ℚ))
  rw [List.map_map] at hmap
  exact hmap


theorem mem_pushStep_history {st' st : HistoryStep} {s : AppState}
    (h : st' ∈ (pushStep st s).history) : st' ∈ s.history ∨ st' = st := by
  rcases List.mem_append.mp h with h | h
  · exact Or.inl (List.mem_of_mem_take h)
  · right
    simpa using h

theorem mem_capHistory_history {st' : HistoryStep} {s : AppState}
    (h : st' ∈ (capHistory s).history) : st' ∈ s.history := by
  unfold capHistory at h
  split at h
  · exact List.mem_of_mem_drop h
  · exact h

/-- Any single dispatch whose UpdateImage payload does not set zIndex
preserves density of the live collection and of every snapshot. -/
theorem denseInv_step (s : AppState) (ev : Event) (hz : noZUpd ev)
    (hI : DenseInv s) : DenseInv (imageReducer s ev) := by
  obtain ⟨hD, hH⟩ := hI
  have hsnap : ∀ {st st' : HistoryStep} {s1 : AppState},
      st' ∈ (capHistory (pushStep st s1)).history →
      denseZ s1.images → st.images = s1.images →
      (∀ u ∈ s1.history, denseZ u.images) → denseZ st'.images := by
    intro st st' s1 hmem hD1 hst hH1
    rcases mem_pushStep_history (mem_capHistory_history hmem) with h | rfl
    · exact hH1 _ h
    · rw [hst]
      exact hD1
  have hsnap2 : ∀ {st st' : HistoryStep} {s1 : AppState},
      st' ∈ (pushStep st s1).history →
      denseZ s1.images → st.images = s1.images →
      (∀ u ∈ s1.history, denseZ u.images) → denseZ st'.images := by
    intro st st' s1 hmem hD1 hst hH1
    rcases mem_pushStep_history hmem with h | rfl
    · exact hH1 _ h
    · rw [hst]
      exact hD1
  obtain ⟨now, salt, act⟩ := ev
  cases act with
  | addImage p =>
      show DenseInv (addImageStep now salt p s)
      unfold addImageStep
      split
      · exact ⟨hD, hH⟩
      · have hDnew : denseZ (s.images ++ [newImageOf now salt p s]) :=
          denseZ_append hD rfl
        refine ⟨?_, ?_⟩
        · rw [capHistory_images, pushStep_images]
          exact hDnew
        · intro st' hst'
          exact hsnap hst' hDnew rfl hH
  | deleteImage tid =>
      show DenseInv (deleteImageStep now salt tid s)
      unfold deleteImageStep
      split
      · exact ⟨hD, hH⟩
      · rename_i i hi
        have hDnew := denseZ_renumberZ (s.images.eraseIdx i)
        refine ⟨?_, ?_⟩
        · rw [pushStep_images]
          exact hDnew
        · intro st' hst'
          exact hsnap2 hst' hDnew rfl hH
  | updateImage tid u =>
      show DenseInv (updateImageStep tid u s)
      unfold updateImageStep
      split
      · exact ⟨hD, hH⟩
      · refine ⟨?_, hH⟩
        have hzu : u.zIndex = none := hz
        refine denseZ_of_same ?_ ?_ hD
        · rw [List.length_map, idxFrom_length]
        · refine zList_idxFrom_map _ ?_ s.images 0
          intro p
          split
          · show (applyUpdates p.2 u).zIndex = p.2.zIndex
            unfold applyUpdates
            rw [hzu]
            rfl
          · rfl
  | undo =>
      show DenseInv (undoStep s)
      unfold undoStep
      split
      · dsimp only
        split
        · rename_i st hst
          exact ⟨hH st (List.get?_mem hst), hH⟩
        · exact ⟨hD, hH⟩
      · exact ⟨hD, hH⟩
  | redo =>
      show DenseInv (redoStep s)
      unfold redoStep
      split
      · dsimp only
        split
        · rename_i st hst
          exact ⟨hH st (List.get?_mem hst), hH⟩
        · exact ⟨hD, hH⟩
      · exact ⟨hD, hH⟩
  | addHistoryStep a d =>
      show DenseInv (addHistoryStepStep now salt a d s)
      unfold addHistoryStepStep
      refine ⟨?_, ?_⟩
      · rw [capHistory_images, pushStep_images]
        exact hD
      · intro st' hst'
        exact hsnap hst' hD rfl hH
  | applyCrop =>
      show DenseInv (applyCropStep now salt s)
      unfold applyCropStep
      dsimp only
      split
      · rename_i tid sel htid hsel
        split
        · rename_i i hi
          have hDnew : denseZ ((idxFrom 0 s.images).map fun p =>
              if p.1 = i then
                { p.2 with width := sel.width, height := sel.height
                           x := p.2.x + sel.x, y := p.2.y + sel.y }
              else p.2) := by
            refine denseZ_of_same ?_ ?_ hD
            · rw [List.length_map, idxFrom_length]
            · refine zList_idxFrom_map _ ?_ s.images 0
              intro p
              split <;> rfl
          refine ⟨?_, ?_⟩
          · show denseZ (clearCrop (pushStep _ _)).images
            rw [clearCrop_images, pushStep_images]
            exact hDnew
          · intro st' hst'
            rw [clearCrop_history] at hst'
            exact hsnap2 hst' hDnew rfl hH
        · exact ⟨hD, hH⟩
      · exact ⟨hD, hH⟩
  | reorderLayer tid z =>
      show DenseInv (reorderLayerStep now salt tid z s)
      unfold reorderLayerStep
      split
      · exact ⟨hD, hH⟩
      · rename_i i hi
        split
        · exact ⟨hD, hH⟩
        · rename_i target htarget
          have hDnew := denseZ_renormalizeZ
            (((idxFrom 0 s.images).map fun p =>
              if p.1 = i then { p.2 with zIndex := z } else p.2).map
                (shiftForReorder tid target.zIndex z))
          refine ⟨?_, ?_⟩
          · rw [capHistory_images, pushStep_images]
            exact hDnew
          · intro st' hst'
            exact hsnap hst' hDnew rfl hH
  | toggleLayerVisibility tid =>
      show DenseInv (toggleVisibilityStep now salt tid s)
      unfold toggleVisibilityStep
      split
      · exact ⟨hD, hH⟩
      · rename_i i hi
        have hDnew : denseZ ((idxFrom 0 s.images).map fun p =>
            if p.1 = i then { p.2 with visible := !p.2.visible }
            else p.2) := by
          refine denseZ_of_same ?_ ?_ hD
          · rw [List.length_map, idxFrom_length]
          · refine zList_idxFrom_map _ ?_ s.images 0
            intro p
            split <;> rfl
        refine ⟨?_, ?_⟩
        · rw [pushStep_images]
          exact hDnew
        · intro st' hst'
          exact hsnap2 hst' hDnew rfl hH
  | selectImage oid => exact ⟨hD, hH⟩
  | setDragMode m => exact ⟨hD, hH⟩
  | toggleAspectLock => exact ⟨hD, hH⟩
  | setAspectLock b => exact ⟨hD, hH⟩
  | startCrop tid => exact ⟨hD, hH⟩
  | updateCropSelection sel => exact ⟨hD, hH⟩
  | cancelCrop => exact ⟨hD, hH⟩
  | toggleLayerSidebar => exact ⟨hD, hH⟩
  | setLayerSidebar b => exact ⟨hD, hH⟩
  | toggleDarkMode => exact ⟨hD, hH⟩
  | setDarkMode b => exact ⟨hD, hH⟩
  | setLoading b => exact ⟨hD, hH⟩
  | resetState =>
      refine ⟨?_, ?_⟩
      · show denseZ ([] : List ImageItem)
        decide
      · intro st' hst'
        exact absurd hst' (List.not_mem_nil st')

theorem denseInv_run_aux (evs : List Event) :
    ∀ s : AppState, (∀ ev ∈ evs, noZUpd ev) → DenseInv s →
      DenseInv (List.foldl imageReducer s evs) := by
  induction evs with
  | nil => exact fun s _ h => h
  | cons ev evs ih =>
      intro s hk h
      exact ih _ (fun e he => hk e (by simp [he]))
        (denseInv_step s ev (hk ev (by simp)) h)

/-- Claim C2 (amended): starting from the initial document, after any
sequence of completed reducer operations in which no UpdateImage payload
writes the zIndex field, the zIndex values of the N live images are exactly
0..N-1, each occurring once.  (An UpdateImage payload carrying a zIndex is
shallow-merged verbatim by the reducer and breaks density — see the
counterexample.) -/
theorem c2_zindex_density (evs : List Event)
    (hz : ∀ ev ∈ evs, noZUpd ev) : denseZ (run evs).images :=
  (denseInv_run_aux evs initialState hz
    ⟨by decide, fun st hst => by simp [initialState] at hst⟩).1

theorem c2_zindex_density_witness :
    denseZ (run [evAddA, evAddB, evUndo]).images :=
  c2_zindex_density [evAddA, evAddB, evUndo]
    (by intro ev hev
        simp only [List.mem_cons, List.not_mem_nil, or_false] at hev
        rcases hev with rfl | rfl | rfl <;> trivial)

/-- Claim C2 counterexample: AddImage followed by an UpdateImage whose
payload sets zIndex to 5 leaves a single image whose zIndex set is {5},
not {0}. -/
theorem c2_zindex_density_counterexample :
    ¬ denseZ (run [evAddA,
      ⟨2, 0, .updateImage ⟨0, 0⟩ { zIndex := some 5 }⟩]).images := by
  decide
